import Mathlib

/-!
Verification of the numerical routines of the ComputationalPhysics scripts.

Each Python function is embedded as a Lean definition over the real numbers
(floating point arithmetic is idealised as exact real arithmetic; `numpy`
arrays become lists or index functions; the black-box library eigensolver is
an abstract parameter).  The theorems below settle the specification claims
against these definitions.
-/

noncomputable section

open Real

/-! ## Shared helper: the numpy linspace grid

`np.linspace(start, stop, num, endpoint)` returns the `num` points
`start + i * step` where `step = (stop-start)/(num-1)` when the endpoint is
included and `step = (stop-start)/num` when it is excluded. -/

def linspace (start stop : ℝ) (num : ℕ) (endpoint : Bool) : List ℝ :=
  (List.range num).map (fun i : ℕ =>
    start + (i : ℝ) *
      (if endpoint then (stop - start) / ((num : ℝ) - 1)
       else (stop - start) / (num : ℝ)))

/-! ## 2_1_katharina.py : numerical differentiation -/

/-- `vor_diff` from `2_1_katharina.py`: forward difference. -/
def vor_diff (funktion : ℝ → ℝ) (x_0 h : ℝ) : ℝ :=
  (funktion (x_0 + h) - funktion x_0) / h

/-- `zentral_diff` from `2_1_katharina.py`: central difference. -/
def zentral_diff (funktion : ℝ → ℝ) (x_0 h : ℝ) : ℝ :=
  (funktion (x_0 + h / 2) - funktion (x_0 - h / 2)) / h

/-- `extrapol_diff` from `2_1_katharina.py`: extrapolated difference. -/
def extrapol_diff (funktion : ℝ → ℝ) (x_0 h : ℝ) : ℝ :=
  (8 * (funktion (x_0 + h / 4) - funktion (x_0 - h / 4)) -
    (funktion (x_0 + h / 2) - funktion (x_0 - h / 2))) / (3 * h)

/-! ## 3_1_katharina.py : numerical integration

All three routines build the same grid `x = np.linspace(a, b, N,
endpoint=False)`; the strip width is `h = b - a` in the special case `N = 1`
and the linspace step `(b-a)/N` otherwise. -/

/-- The strip width used by the three integration routines of
`3_1_katharina.py`, with the inline `N == 1` special case. -/
def quadH (a b : ℝ) (N : ℕ) : ℝ :=
  if N = 1 then b - a else (b - a) / (N : ℝ)

/-- `mittelpunkt_int` from `3_1_katharina.py`: midpoint rule. -/
def mittelpunkt_int (funktion : ℝ → ℝ) (a b : ℝ) (N : ℕ) : ℝ :=
  quadH a b N *
    ((linspace a b N false).map (fun t => funktion (t + quadH a b N / 2))).sum

/-- `trapez_int` from `3_1_katharina.py`: trapezoid rule. -/
def trapez_int (funktion : ℝ → ℝ) (a b : ℝ) (N : ℕ) : ℝ :=
  quadH a b N / 2 *
    (((linspace a b N false).map funktion).sum +
      ((linspace a b N false).map (fun t => funktion (t + quadH a b N))).sum)

/-- `simpson_int` from `3_1_katharina.py`: Simpson rule. -/
def simpson_int (funktion : ℝ → ℝ) (a b : ℝ) (N : ℕ) : ℝ :=
  quadH a b N / 6 *
    (((linspace a b N false).map funktion).sum +
      4 * ((linspace a b N false).map (fun t => funktion (t + quadH a b N / 2))).sum +
      ((linspace a b N false).map (fun t => funktion (t + quadH a b N))).sum)

/-! ## Claims C2, C3, C6 -/

/-- Claim C2: for every integrand, bounds and number of subintervals
`N ≥ 1`, the Simpson quadrature value equals the weighted combination
`(trapez + 2 * mittelpunkt) / 3` of the trapezoid and midpoint values over
the same discretisation. -/
theorem simpson_eq_trapez_mittelpunkt_mix (f : ℝ → ℝ) (a b : ℝ) (N : ℕ)
    (hN : 1 ≤ N) :
    simpson_int f a b N = (trapez_int f a b N + 2 * mittelpunkt_int f a b N) / 3 := by
  unfold simpson_int trapez_int mittelpunkt_int
  ring

/-- Witness for C2 at a concrete input. -/
theorem simpson_eq_trapez_mittelpunkt_mix_check :
    1 ≤ 2 ∧
      simpson_int (fun t => t) 0 1 2 =
        (trapez_int (fun t => t) 0 1 2 + 2 * mittelpunkt_int (fun t => t) 0 1 2) / 3 :=
  ⟨by norm_num, simpson_eq_trapez_mittelpunkt_mix (fun t => t) 0 1 2 (by norm_num)⟩

/-- Claim C3: for every function, point and nonzero step `h`, the
extrapolated difference is exactly the Richardson combination
`(4 * zentral(h/2) - zentral(h)) / 3` of the central difference at half
step and at full step. -/
theorem extrapol_eq_richardson (f : ℝ → ℝ) (x_0 h : ℝ) (hh : h ≠ 0) :
    extrapol_diff f x_0 h =
      (4 * zentral_diff f x_0 (h / 2) - zentral_diff f x_0 h) / 3 := by
  unfold extrapol_diff zentral_diff
  rw [show x_0 + h / 2 / 2 = x_0 + h / 4 by ring,
    show x_0 - h / 2 / 2 = x_0 - h / 4 by ring]
  field_simp
  ring

/-- Witness for C3 at a concrete input. -/
theorem extrapol_eq_richardson_check :
    (1 : ℝ) ≠ 0 ∧
      extrapol_diff (fun t => t ^ 2) 0 1 =
        (4 * zentral_diff (fun t => t ^ 2) 0 (1 / 2) - zentral_diff (fun t => t ^ 2) 0 1) / 3 :=
  ⟨one_ne_zero, extrapol_eq_richardson (fun t => t ^ 2) 0 1 one_ne_zero⟩

/-- Claim C6: the `N = 1` edge case of the three quadrature routines uses the
strip width `h = b - a`, so the three rules reduce to their single-strip
closed forms (each a well-defined real number). -/
theorem quadratur_N1_einzelstreifen (f : ℝ → ℝ) (a b : ℝ) :
    mittelpunkt_int f a b 1 = (b - a) * f ((a + b) / 2) ∧
      trapez_int f a b 1 = (b - a) / 2 * (f a + f b) ∧
      simpson_int f a b 1 = (b - a) / 6 * (f a + 4 * f ((a + b) / 2) + f b) := by
  have hx : linspace a b 1 false = [a] := by
    simp [linspace, List.range_succ]
  have hmid : a + quadH a b 1 / 2 = (a + b) / 2 := by
    simp [quadH]; ring
  have hend : a + quadH a b 1 = b := by
    simp [quadH]
  refine ⟨?_, ?_, ?_⟩
  · rw [mittelpunkt_int, hx]
    simp only [List.map_cons, List.map_nil, List.sum_cons, List.sum_nil, add_zero, hmid]
    simp [quadH]
  · rw [trapez_int, hx]
    simp only [List.map_cons, List.map_nil, List.sum_cons, List.sum_nil, add_zero, hend]
    simp [quadH]
  · rw [simpson_int, hx]
    simp only [List.map_cons, List.map_nil, List.sum_cons, List.sum_nil, add_zero, hmid, hend]
    simp [quadH]

/-! ## 5_1_katharina.py and 7_1_katharina.py : discretisation helpers -/

/-- `diskretisierung` from `5_1_katharina.py`: grid of `N` interior points
built with `np.linspace(a + delta_x, b - delta_x, N)` (endpoint included),
where `delta_x = (b-a)/(N+1)`. -/
def diskretisierung_5 (a b : ℝ) (N : ℕ) : List ℝ :=
  linspace (a + (b - a) / ((N : ℝ) + 1)) (b - (b - a) / ((N : ℝ) + 1)) N true

/-- `diskretisierung` from `7_1_katharina.py` with `retstep=False`: grid of
`N` points built with `np.linspace(xmin + delta_x, xmax - delta_x, N,
endpoint=False)`, where `delta_x = (xmax-xmin)/(N+1)`. -/
def diskretisierung_7 (xmin xmax : ℝ) (N : ℕ) : List ℝ :=
  linspace (xmin + (xmax - xmin) / ((N : ℝ) + 1)) (xmax - (xmax - xmin) / ((N : ℝ) + 1)) N false

/-! ## Claim C4 -/

/-- Counterexample to claim C4: at `a = 0`, `b = 1`, `N = 2` the two
discretisation helpers return different arrays (`[1/3, 2/3]` in
`5_1_katharina.py` versus `[1/3, 1/2]` in `7_1_katharina.py`), because the
former includes the linspace endpoint and the latter excludes it. -/
theorem diskretisierung_mismatch_bei_N2 :
    diskretisierung_5 0 1 2 ≠ diskretisierung_7 0 1 2 := by
  have h5 : diskretisierung_5 0 1 2 = [1 / 3, 2 / 3] := by
    simp [diskretisierung_5, linspace, List.range_succ]
    norm_num
  have h7 : diskretisierung_7 0 1 2 = [1 / 3, 1 / 2] := by
    simp [diskretisierung_7, linspace, List.range_succ]
    norm_num
  rw [h5, h7]
  intro h
  injection h with h1 h2
  injection h2 with h3 h4
  norm_num at h3

/-- Claim C4 (amended): the two discretisation helpers agree exactly in the
single-point case: for every `a` and `b`, both return `[a + (b-a)/2]` when
`N = 1`.  For `N ≥ 2` the arrays differ, since `5_1_katharina.py` includes
the linspace endpoint while `7_1_katharina.py` excludes it. -/
theorem diskretisierung_stimmen_bei_N1 (a b : ℝ) :
    diskretisierung_5 a b 1 = diskretisierung_7 a b 1 := by
  simp [diskretisierung_5, diskretisierung_7, linspace, List.range_succ]

/-! ## 1_1_katharina.py : standard map on the torus

Python's `%` on floats with a positive modulus returns a representative in
`[0, m)`; it is embedded as `a - m * ⌊a / m⌋`. -/

/-- Python float modulo `a % m`. -/
def pymod (a m : ℝ) : ℝ := a - m * ⌊a / m⌋

lemma pymod_eq_fract (a m : ℝ) (hm : m ≠ 0) :
    pymod a m = m * Int.fract (a / m) := by
  unfold pymod Int.fract
  rw [mul_sub, mul_div_cancel₀ _ hm]

lemma pymod_nonneg (a m : ℝ) (hm : 0 < m) : 0 ≤ pymod a m := by
  rw [pymod_eq_fract a m hm.ne']
  exact mul_nonneg hm.le (Int.fract_nonneg _)

lemma pymod_lt (a m : ℝ) (hm : 0 < m) : pymod a m < m := by
  rw [pymod_eq_fract a m hm.ne']
  calc m * Int.fract (a / m) < m * 1 :=
        (mul_lt_mul_left hm).mpr (Int.fract_lt_one _)
    _ = m := mul_one m

/-- `torus_iteration` from `1_1_katharina.py`: `n` iterations of the
standard map, collecting after each step the wrapped angle
`theta % (2*pi)` and the shifted-wrapped momentum
`(p + pi) % (2*pi) - pi`. -/
def torus_iteration (theta p K : ℝ) : ℕ → List ℝ × List ℝ
  | 0 => ([], [])
  | n + 1 =>
    let th := theta + pymod p (2 * π)
    let pp := p + (pymod (K * Real.sin th + π) (2 * π) - π)
    let rest := torus_iteration th pp K n
    (pymod th (2 * π) :: rest.1, (pymod (pp + π) (2 * π) - π) :: rest.2)

/-! ## Claim C7 -/

/-- Claim C7: for every kick strength `K`, starting point and iteration
count `n`, `torus_iteration` returns two lists of length exactly `n` whose
entries stay on the torus: every theta value lies in `[0, 2*pi)` and every
p value lies in `[-pi, pi)`. -/
theorem torus_iteration_bleibt_auf_torus (theta p K : ℝ) (n : ℕ) :
    (torus_iteration theta p K n).1.length = n ∧
      (torus_iteration theta p K n).2.length = n ∧
      List.Forall (fun v => 0 ≤ v ∧ v < 2 * π) (torus_iteration theta p K n).1 ∧
      List.Forall (fun v => -π ≤ v ∧ v < π) (torus_iteration theta p K n).2 := by
  have h2pi : (0 : ℝ) < 2 * π := by positivity
  induction n generalizing theta p with
  | zero => simp [torus_iteration]
  | succ n ih =>
    obtain ⟨ih1, ih2, ih3, ih4⟩ :=
      ih (theta + pymod p (2 * π))
        (p + (pymod (K * Real.sin (theta + pymod p (2 * π)) + π) (2 * π) - π))
    refine ⟨?_, ?_, ?_, ?_⟩
    · simpa [torus_iteration] using ih1
    · simpa [torus_iteration] using ih2
    · refine List.forall_cons _ _ _ |>.mpr ⟨⟨pymod_nonneg _ _ h2pi, pymod_lt _ _ h2pi⟩, ?_⟩
      exact ih3
    · refine List.forall_cons _ _ _ |>.mpr ⟨⟨?_, ?_⟩, ih4⟩
      · have := pymod_nonneg
          (p + (pymod (K * Real.sin (theta + pymod p (2 * π)) + π) (2 * π) - π) + π)
          (2 * π) h2pi
        linarith
      · have := pymod_lt
          (p + (pymod (K * Real.sin (theta + pymod p (2 * π)) + π) (2 * π) - π) + π)
          (2 * π) h2pi
        linarith

/-! ## 5_1_katharina.py : diagonalisation of the discretised Hamiltonian

`scipy.linalg.eigh` is a black-box library eigensolver; it is modelled as an
abstract function `eigh` from a matrix to a pair (eigenvalues,
eigenvector matrix). -/

/-- The off-diagonal magnitude `z = h_eff^2 / (2*delta_x^2)` computed by
`diagonalisieren` in `5_1_katharina.py`. -/
def nebendiag_z (h_eff delta_x : ℝ) : ℝ := h_eff ^ 2 / (2 * delta_x ^ 2)

/-- The matrix assembled by `diagonalisieren` in `5_1_katharina.py`:
`np.diag(V) + np.diag(ones(N)*2z) + np.diag(ones(N-1)*(-z), -1) +
np.diag(ones(N-1)*(-z), +1)` with `delta_x = x[1] - x[0]`. -/
def diagonalisieren_matrix (N : ℕ) (h_eff : ℝ) (x V : ℕ → ℝ) :
    Matrix (Fin N) (Fin N) ℝ :=
  Matrix.of fun i j =>
    (if i = j then V i else 0) +
      (if i = j then 2 * nebendiag_z h_eff (x 1 - x 0) else 0) +
      (if (i : ℕ) = (j : ℕ) + 1 then -nebendiag_z h_eff (x 1 - x 0) else 0) +
      (if (j : ℕ) = (i : ℕ) + 1 then -nebendiag_z h_eff (x 1 - x 0) else 0)

/-- `diagonalisieren` from `5_1_katharina.py`: assemble the matrix and hand
it to the library eigensolver, returning that solver's output unchanged. -/
def diagonalisieren (N : ℕ) (h_eff : ℝ) (x V : ℕ → ℝ)
    (eigh : Matrix (Fin N) (Fin N) ℝ → (Fin N → ℝ) × Matrix (Fin N) (Fin N) ℝ) :
    (Fin N → ℝ) × Matrix (Fin N) (Fin N) ℝ :=
  eigh (diagonalisieren_matrix N h_eff x V)

/-- The matrix described by the specification sentence of claim C1: the
symmetric tridiagonal matrix with diagonal `V_i + h_eff^2/delta_x^2` and
sub- and super-diagonal `-h_eff^2/(2*delta_x^2)`. -/
def spec_tridiagonal (N : ℕ) (h_eff delta_x : ℝ) (V : ℕ → ℝ) :
    Matrix (Fin N) (Fin N) ℝ :=
  Matrix.of fun i j =>
    if i = j then V i + h_eff ^ 2 / delta_x ^ 2
    else if (i : ℕ) = (j : ℕ) + 1 ∨ (j : ℕ) = (i : ℕ) + 1 then
      -(h_eff ^ 2 / (2 * delta_x ^ 2))
    else 0

lemma two_mul_nebendiag (h_eff delta_x : ℝ) :
    2 * nebendiag_z h_eff delta_x = h_eff ^ 2 / delta_x ^ 2 := by
  unfold nebendiag_z
  rcases eq_or_ne delta_x 0 with h0 | h0
  · simp [h0]
  · field_simp
    ring

/-! ## Claim C1 -/

/-- Claim C1: for every `N ≥ 2`, `h_eff`, grid `x` and potential array `V`,
`diagonalisieren` assembles exactly the symmetric tridiagonal matrix with
diagonal entries `V_i + h_eff^2/delta_x^2` and off-diagonal entries
`-h_eff^2/(2*delta_x^2)` where `delta_x = x[1] - x[0]`, and returns the
library eigensolver's output on that matrix. -/
theorem diagonalisieren_baut_spec_matrix (N : ℕ) (h_eff : ℝ) (x V : ℕ → ℝ)
    (eigh : Matrix (Fin N) (Fin N) ℝ → (Fin N → ℝ) × Matrix (Fin N) (Fin N) ℝ)
    (hN : 2 ≤ N) :
    diagonalisieren_matrix N h_eff x V = spec_tridiagonal N h_eff (x 1 - x 0) V ∧
      (spec_tridiagonal N h_eff (x 1 - x 0) V).IsSymm ∧
      diagonalisieren N h_eff x V eigh = eigh (spec_tridiagonal N h_eff (x 1 - x 0) V) := by
  have hmat : diagonalisieren_matrix N h_eff x V = spec_tridiagonal N h_eff (x 1 - x 0) V := by
    ext i j
    simp only [diagonalisieren_matrix, spec_tridiagonal, Matrix.of_apply]
    by_cases hij : i = j
    · subst hij
      have e1 : ¬((i : ℕ) = (i : ℕ) + 1) := by omega
      simp only [if_pos rfl, if_neg e1, add_zero]
      rw [two_mul_nebendiag]
      simp
    · rw [if_neg hij, if_neg hij, if_neg hij]
      by_cases h1 : (i : ℕ) = (j : ℕ) + 1
      · rw [if_pos h1, if_neg (by omega), if_pos (Or.inl h1)]
        simp [nebendiag_z]
      · rw [if_neg h1]
        by_cases h2 : (j : ℕ) = (i : ℕ) + 1
        · rw [if_pos h2, if_pos (Or.inr h2)]
          simp [nebendiag_z]
        · rw [if_neg h2, if_neg (by tauto)]
          simp
  refine ⟨hmat, ?_, ?_⟩
  · show Matrix.transpose (spec_tridiagonal N h_eff (x 1 - x 0) V) =
      spec_tridiagonal N h_eff (x 1 - x 0) V
    ext i j
    simp only [Matrix.transpose_apply, spec_tridiagonal, Matrix.of_apply]
    by_cases hij : i = j
    · subst hij; rfl
    · rw [if_neg (fun h => hij h.symm), if_neg hij]
      by_cases hor : (i : ℕ) = (j : ℕ) + 1 ∨ (j : ℕ) = (i : ℕ) + 1
      · rw [if_pos (Or.symm hor), if_pos hor]
      · rw [if_neg (fun hc => hor (Or.symm hc)), if_neg hor]
  · unfold diagonalisieren
    rw [hmat]

/-- Witness for C1 at a concrete input. -/
theorem diagonalisieren_baut_spec_matrix_check :
    2 ≤ 2 ∧
      (diagonalisieren_matrix 2 1 (fun i => (i : ℝ)) (fun _ => 0) =
          spec_tridiagonal 2 1 ((1 : ℝ) - 0) (fun _ => 0) ∧
        (spec_tridiagonal 2 1 ((1 : ℝ) - 0) (fun _ => 0)).IsSymm ∧
        diagonalisieren 2 1 (fun i => (i : ℝ)) (fun _ => 0) (fun m => (fun _ => 0, m)) =
          (fun m => ((fun _ => 0 : Fin 2 → ℝ), m)) (spec_tridiagonal 2 1 ((1 : ℝ) - 0) (fun _ => 0))) :=
  ⟨le_refl 2, by
    have h := diagonalisieren_baut_spec_matrix 2 1 (fun i => (i : ℝ)) (fun _ => 0)
      (fun m => (fun _ => 0, m)) (le_refl 2)
    simpa using h⟩

/-! ## 9_1_katharina.py : drift-diffusion probability densities

`gauss` receives a numpy array for `x` and, inside `linksklick`, also arrays
for `mu`; the three broadcast shapes that occur in the script are embedded
separately.  A float value that is not a finite real (a numpy `nan` or
`inf`) is embedded as `none : Option ℝ`.  Python raises `ZeroDivisionError`
only when dividing two scalar floats, which in `linksklick` happens exactly
when both the numerator call `gauss(x_abs, x_0 + v_drift*t, 2*D*t)` and the
denominator call `gauss(x_abs, 2*x_abs - x_0 + v_drift*t, 2*D*t)` take
their `var == 0` branch and return the Python float `0.0`; whenever at
least one of the two is an ndarray, the division follows numpy semantics
(producing `inf` and `nan` entries instead of raising), so the `except`
branch is not reached. -/

/-- The Gaussian density formula from the else-branch of `gauss` in
`9_1_katharina.py`, at a single point. -/
def gauss_at (x mu var : ℝ) : ℝ :=
  1 / Real.sqrt (2 * π * var) * Real.exp (-((x - mu) ^ 2 / (2 * var)))

/-- `gauss` from `9_1_katharina.py` with array `x` and scalar `mu`:
if `var == 0` and `mu` differs from every entry of `x`, return `0.0 * x`
(the all-zero array); otherwise evaluate the density formula pointwise. -/
def gauss (x : List ℝ) (mu var : ℝ) : List ℝ :=
  if var = 0 ∧ ∀ xi ∈ x, mu ≠ xi then x.map (fun xi => 0 * xi)
  else x.map (fun xi => gauss_at xi mu var)

/-- The else-branch density value as a float: a finite real exactly when
`var > 0`.  For `var = 0` the factor `1/sqrt(0)` is `inf` while the
exponential factor is `0.0` or `nan`, so the product is `nan`; for
`var < 0` the square root of a negative number is already `nan`. -/
def gauss_at_f (x mu var : ℝ) : Option ℝ :=
  if 0 < var then some (gauss_at x mu var) else none

/-- numpy float subtraction: `nan` and `inf` operands propagate. -/
def fsub : Option ℝ → Option ℝ → Option ℝ
  | some a, some b => some (a - b)
  | _, _ => none

/-- numpy float multiplication: `nan` and `inf` operands propagate (note
that `0.0 * nan = nan` and `0.0 * inf = nan`). -/
def fmul : Option ℝ → Option ℝ → Option ℝ
  | some a, some b => some (a * b)
  | _, _ => none

/-- numpy float division: on this array path a division by `0.0` yields
`inf` or `nan` (no exception), and `nan` and `inf` operands propagate. -/
def fdiv : Option ℝ → Option ℝ → Option ℝ
  | some a, some b => if b = 0 then none else some (a / b)
  | _, _ => none

/-- `gauss` applied to equal-length arrays `x` and `mu` (elementwise numpy
broadcast), as in the calls `gauss(x_t, x_0 + v_drift*i, 2*D*i)` of
`linksklick`. -/
def gauss_arr (x mu : List ℝ) (var : ℝ) : List (Option ℝ) :=
  if var = 0 ∧ ∀ p ∈ x.zip mu, p.2 ≠ p.1 then x.map (fun xi => some (0 * xi))
  else (x.zip mu).map (fun p => gauss_at_f p.1 p.2 var)

/-- `gauss` applied to a scalar `x` and an array `mu` (numpy broadcast), as
in the calls `gauss(x_abs, ..., 2*D*i)` of `linksklick`; in the `var == 0`
branch Python returns the scalar `0.0`, which broadcasts like the constant
zero array. -/
def gauss_bcast (x : ℝ) (mu : List ℝ) (var : ℝ) : List (Option ℝ) :=
  if var = 0 ∧ ∀ m ∈ mu, m ≠ x then mu.map (fun _ => some (0 * x))
  else mu.map (fun m => gauss_at_f x m var)

/-- The reflection-principle density `p_mit_abs` computed inside
`linksklick` of `9_1_katharina.py`, including the
`try/except ZeroDivisionError` fallback to `np.zeros(len(x_t))`.  The
exception fires exactly when the division numerator
`gauss(x_abs, x_0 + v_drift*t, 2*D*t)` and denominator
`gauss(x_abs, 2*x_abs - x_0 + v_drift*t, 2*D*t)` are both the Python
scalar `0.0`, i.e. when each of the two calls takes its `var == 0` branch;
otherwise the formula is evaluated with numpy float semantics. -/
def p_mit_abs (x_t x_0 : List ℝ) (v_drift t D x_abs : ℝ) : List (Option ℝ) :=
  if (2 * D * t = 0 ∧ ∀ x0 ∈ x_0, x0 + v_drift * t ≠ x_abs) ∧
      (2 * D * t = 0 ∧ ∀ x0 ∈ x_0, 2 * x_abs - x0 + v_drift * t ≠ x_abs) then
    List.replicate x_t.length (some 0)
  else
    List.zipWith fsub
      (gauss_arr x_t (x_0.map (fun x0 => x0 + v_drift * t)) (2 * D * t))
      (List.zipWith fmul
        (gauss_arr x_t (x_0.map (fun x0 => 2 * x_abs - x0 + v_drift * t)) (2 * D * t))
        (List.zipWith fdiv
          (gauss_bcast x_abs (x_0.map (fun x0 => x0 + v_drift * t)) (2 * D * t))
          (gauss_bcast x_abs (x_0.map (fun x0 => 2 * x_abs - x0 + v_drift * t)) (2 * D * t))))

/-! ## Claim C5 -/

/-- Counterexample to claim C5: at `x_t = [0]`, `x_0 = [-1]`,
`v_drift = 1`, `t = 1`, `D = 0`, `x_abs = 0` the denominator call
`gauss(x_abs, 2*x_abs - x_0 + v_drift*t, 2*D*t)` is zero (its `var == 0`
branch fires, first conjunct), yet `p_mit_abs` is not the all-zero array:
the numerator call hits its else branch because `x_0 + v_drift*t` contains
`x_abs`, so it returns an ndarray, the division follows numpy semantics,
no `ZeroDivisionError` is raised, and the computed entry is `nan`. -/
theorem p_mit_abs_nenner_null_ohne_fallback :
    gauss_bcast 0 ([(-1 : ℝ)].map (fun x0 => 2 * 0 - x0 + 1 * 1)) (2 * 0 * 1) =
      [some (0 * 0)] ∧
      p_mit_abs [0] [(-1)] 1 1 0 0 ≠ List.replicate 1 (some 0) := by
  have hmuD : ∀ m ∈ [(-1 : ℝ)].map (fun x0 => 2 * 0 - x0 + 1 * 1), m ≠ (0 : ℝ) := by
    intro m hm
    simp only [List.map_cons, List.map_nil, List.mem_singleton] at hm
    subst hm
    norm_num
  constructor
  · rw [gauss_bcast, if_pos ⟨by norm_num, hmuD⟩]
    rfl
  · have hexc : ¬(((2 : ℝ) * 0 * 1 = 0 ∧ ∀ x0 ∈ [(-1 : ℝ)], x0 + 1 * 1 ≠ (0 : ℝ)) ∧
        ((2 : ℝ) * 0 * 1 = 0 ∧ ∀ x0 ∈ [(-1 : ℝ)], 2 * 0 - x0 + 1 * 1 ≠ (0 : ℝ))) := by
      rintro ⟨⟨h1, hnum⟩, h2⟩
      exact (hnum (-1) (List.mem_singleton.mpr rfl)) (by norm_num)
    have hA : gauss_arr [(0 : ℝ)]
        ([(-1 : ℝ)].map (fun x0 => x0 + 1 * 1)) (2 * 0 * 1) = [none] := by
      rw [gauss_arr, if_neg]
      · show [gauss_at_f 0 ((-1 : ℝ) + 1 * 1) (2 * 0 * 1)] = [none]
        rw [gauss_at_f, if_neg (by norm_num)]
      · rintro ⟨h1, h2⟩
        exact (h2 ((0 : ℝ), (-1 : ℝ) + 1 * 1) (by simp)) (by norm_num)
    have hB : gauss_arr [(0 : ℝ)]
        ([(-1 : ℝ)].map (fun x0 => 2 * 0 - x0 + 1 * 1)) (2 * 0 * 1) =
        [some (0 * 0)] := by
      rw [gauss_arr, if_pos]
      · rfl
      · refine ⟨by norm_num, ?_⟩
        intro p hp
        have hp' : p = ((0 : ℝ), 2 * 0 - (-1 : ℝ) + 1 * 1) := by simpa using hp
        subst hp'
        norm_num
    have hbcN : gauss_bcast 0
        ([(-1 : ℝ)].map (fun x0 => x0 + 1 * 1)) (2 * 0 * 1) = [none] := by
      rw [gauss_bcast, if_neg]
      · show [gauss_at_f 0 ((-1 : ℝ) + 1 * 1) (2 * 0 * 1)] = [none]
        rw [gauss_at_f, if_neg (by norm_num)]
      · rintro ⟨h1, h2⟩
        exact (h2 ((-1 : ℝ) + 1 * 1) (by simp)) (by norm_num)
    have hbcD : gauss_bcast 0
        ([(-1 : ℝ)].map (fun x0 => 2 * 0 - x0 + 1 * 1)) (2 * 0 * 1) =
        [some (0 * 0)] := by
      rw [gauss_bcast, if_pos ⟨by norm_num, hmuD⟩]
      rfl
    have hval : p_mit_abs [0] [(-1)] 1 1 0 0 = [none] := by
      unfold p_mit_abs
      split_ifs with hc
      · exact absurd hc hexc
      · rw [hA, hB, hbcN, hbcD]
        rfl
    rw [hval]
    simp

/-- Claim C5 (amended): in the drift-diffusion script, `gauss` returns an
all-zero array whenever `var = 0` and `mu` differs from every entry of
`x`, and `p_mit_abs` in `linksklick` is set to the all-zero array whenever
the `ZeroDivisionError` fires, i.e. whenever both the numerator
`gauss(x_abs, x_0 + v_drift*t, 2*D*t)` and the denominator
`gauss(x_abs, 2*x_abs - x_0 + v_drift*t, 2*D*t)` take their `var == 0`
scalar zero branch.  A zero denominator alone does not trigger the
fallback. -/
theorem gauss_division_null_fallback :
    (∀ (x : List ℝ) (mu var : ℝ), var = 0 → (∀ xi ∈ x, mu ≠ xi) →
      (gauss x mu var).length = x.length ∧ ∀ v ∈ gauss x mu var, v = 0) ∧
    ∀ (x_t x_0 : List ℝ) (v_drift t D x_abs : ℝ), 2 * D * t = 0 →
      (∀ x0 ∈ x_0, x0 + v_drift * t ≠ x_abs) →
      (∀ x0 ∈ x_0, 2 * x_abs - x0 + v_drift * t ≠ x_abs) →
      p_mit_abs x_t x_0 v_drift t D x_abs = List.replicate x_t.length (some 0) := by
  constructor
  · intro x mu var h1 h2
    rw [gauss, if_pos ⟨h1, h2⟩]
    constructor
    · exact List.length_map x _
    · intro v hv
      rcases List.mem_map.mp hv with ⟨xi, _, hxi⟩
      simpa using hxi.symm
  · intro x_t x_0 v_drift t D x_abs h1 h2 h3
    rw [p_mit_abs, if_pos ⟨⟨h1, h2⟩, ⟨h1, h3⟩⟩]

/-- Witness for C5 at a concrete input. -/
theorem gauss_division_null_fallback_check :
    (2 * (0 : ℝ) * 0 = 0 ∧ (∀ x0 ∈ [(0 : ℝ)], x0 + 0 * 0 ≠ (1 : ℝ)) ∧
        ∀ x0 ∈ [(0 : ℝ)], 2 * 1 - x0 + 0 * 0 ≠ (1 : ℝ)) ∧
      p_mit_abs [0] [0] 0 0 0 1 = List.replicate 1 (some 0) := by
  have hnum : ∀ x0 ∈ [(0 : ℝ)], x0 + 0 * 0 ≠ (1 : ℝ) := by
    intro x0 hx0
    simp only [List.mem_singleton] at hx0
    subst hx0
    norm_num
  have hden : ∀ x0 ∈ [(0 : ℝ)], 2 * 1 - x0 + 0 * 0 ≠ (1 : ℝ) := by
    intro x0 hx0
    simp only [List.mem_singleton] at hx0
    subst hx0
    norm_num
  exact ⟨⟨by norm_num, hnum, hden⟩,
    gauss_division_null_fallback.2 [0] [0] 0 0 0 1 (by norm_num) hnum hden⟩
/-! ## Mouse-click handlers (1_1_katharina.py and 4_1_katharina.py)

A `button_press_event` is embedded as a record of button number, whether the
click lies inside a plot axes, and its data coordinates; the toolbar
zoom/pan mode is a string (inactive when empty).  The figure state is the
list of plotted layers, each layer a list of points; a handler returns the
new figure state.  `scipy.integrate.odeint` of `4_1_katharina.py` is a
black-box library routine, modelled as an abstract function from the
initial condition to the trajectory. -/

structure MouseEvent where
  button : ℤ
  inaxes : Bool
  xdata : ℝ
  ydata : ℝ

/-- `linksklick` from `1_1_katharina.py`: on a left click inside the axes
with the toolbar mode inactive, plot 1000 standard-map iterates started at
the clicked point; otherwise do nothing. -/
def linksklick_11 (K : ℝ) (mode : String) (e : MouseEvent)
    (state : List (List (ℝ × ℝ))) : List (List (ℝ × ℝ)) :=
  if e.button = 1 ∧ e.inaxes = true ∧ mode = "" then
    state ++
      [(torus_iteration e.xdata e.ydata K 1000).1.zip
        (torus_iteration e.xdata e.ydata K 1000).2]
  else state

/-- `linksklick` from `4_1_katharina.py`: on a left click inside the axes
with the toolbar mode inactive, integrate the driven double-well dynamics
from the clicked initial condition and plot the trajectory layer and the
stroboscopic layer (every `N`-th point, `perioden + 1` samples); otherwise
do nothing. -/
def linksklick_41 (odeint : ℝ × ℝ → List (ℝ × ℝ)) (perioden N : ℕ)
    (mode : String) (e : MouseEvent) (state : List (List (ℝ × ℝ))) :
    List (List (ℝ × ℝ)) :=
  if e.button = 1 ∧ e.inaxes = true ∧ mode = "" then
    state ++
      [odeint (e.xdata, e.ydata),
        (List.range (perioden + 1)).map
          (fun c => (odeint (e.xdata, e.ydata)).getD (c * N) (0, 0))]
  else state

/-! ## Claim C8 -/

/-- Claim C8: the mouse-click handlers recompute and append plot layers
exactly for a left click (`button = 1`) inside a plot axes while the
toolbar mode is inactive; for every other event they return the figure
state unchanged. -/
theorem linksklick_nur_bei_echtem_linksklick (K : ℝ)
    (odeint : ℝ × ℝ → List (ℝ × ℝ)) (perioden N : ℕ) (mode : String)
    (e : MouseEvent) (state : List (List (ℝ × ℝ))) :
    (¬(e.button = 1 ∧ e.inaxes = true ∧ mode = "") →
      linksklick_11 K mode e state = state ∧
        linksklick_41 odeint perioden N mode e state = state) ∧
    ((e.button = 1 ∧ e.inaxes = true ∧ mode = "") →
      linksklick_11 K mode e state =
          state ++
            [(torus_iteration e.xdata e.ydata K 1000).1.zip
              (torus_iteration e.xdata e.ydata K 1000).2] ∧
        linksklick_41 odeint perioden N mode e state =
          state ++
            [odeint (e.xdata, e.ydata),
              (List.range (perioden + 1)).map
                (fun c => (odeint (e.xdata, e.ydata)).getD (c * N) (0, 0))]) := by
  constructor
  · intro h
    rw [linksklick_11, if_neg h, linksklick_41, if_neg h]
    exact ⟨rfl, rfl⟩
  · intro h
    rw [linksklick_11, if_pos h, linksklick_41, if_pos h]
    exact ⟨rfl, rfl⟩

/-- Witness for C8 at a concrete input: a right-button click (button 3)
leaves the state unchanged. -/
theorem linksklick_nur_bei_echtem_linksklick_check :
    ¬((⟨3, true, 0, 0⟩ : MouseEvent).button = 1 ∧
        (⟨3, true, 0, 0⟩ : MouseEvent).inaxes = true ∧ ("" : String) = "") ∧
      linksklick_11 0 "" ⟨3, true, 0, 0⟩ [] = [] ∧
        linksklick_41 (fun _ => []) 0 1 "" ⟨3, true, 0, 0⟩ [] = [] := by
  have hn : ¬((⟨3, true, 0, 0⟩ : MouseEvent).button = 1 ∧
      (⟨3, true, 0, 0⟩ : MouseEvent).inaxes = true ∧ ("" : String) = "") := by
    intro h
    exact absurd h.1 (by norm_num)
  exact ⟨hn,
    (linksklick_nur_bei_echtem_linksklick 0 (fun _ => []) 0 1 "" ⟨3, true, 0, 0⟩ []).1 hn⟩

/-! ## 7_1_katharina.py : Bloch-periodic Hamiltonian matrix

`diagonalisierung` assembles a complex matrix: real tridiagonal interior
(diagonal `V(x_i) + 2z`, sub- and super-diagonal `-z`) and the two corner
entries `h[0, N-1] = -z*exp(-i*k)` and `h[N-1, 0] = -z*exp(+i*k)` written
afterwards (so for `N = 1` the later write `h[-1, 0]` wins). -/

/-- The off-diagonal magnitude `z = h_eff^2 / (2*delta_x^2)` of
`diagonalisierung` in `7_1_katharina.py`, with `delta_x = x[1] - x[0]`. -/
def bloch_z (h_eff : ℝ) (x : ℕ → ℝ) : ℝ := h_eff ^ 2 / (2 * (x 1 - x 0) ^ 2)

/-- The matrix assembled by `diagonalisierung` in `7_1_katharina.py`. -/
def diagonalisierung_matrix (N : ℕ) (h_eff : ℝ) (x : ℕ → ℝ) (V : ℝ → ℝ)
    (k : ℝ) : Matrix (Fin N) (Fin N) ℂ :=
  Matrix.of fun i j =>
    if (i : ℕ) = N - 1 ∧ (j : ℕ) = 0 then
      -((bloch_z h_eff x : ℝ) : ℂ) * Complex.exp (Complex.I * (k : ℂ))
    else if (i : ℕ) = 0 ∧ (j : ℕ) = N - 1 then
      -((bloch_z h_eff x : ℝ) : ℂ) * Complex.exp (-(Complex.I * (k : ℂ)))
    else
      (if i = j then ((V (x i) + 2 * bloch_z h_eff x : ℝ) : ℂ) else 0) +
        (if (i : ℕ) = (j : ℕ) + 1 then -((bloch_z h_eff x : ℝ) : ℂ) else 0) +
        (if (j : ℕ) = (i : ℕ) + 1 then -((bloch_z h_eff x : ℝ) : ℂ) else 0)

lemma star_neg_z_exp_pos (z k : ℝ) :
    star (-((z : ℝ) : ℂ) * Complex.exp (Complex.I * (k : ℂ))) =
      -((z : ℝ) : ℂ) * Complex.exp (-(Complex.I * (k : ℂ))) := by
  rw [star_mul', star_neg, Complex.star_def, Complex.conj_ofReal,
    ← Complex.exp_conj, map_mul, Complex.conj_I, Complex.conj_ofReal]
  ring_nf

lemma star_neg_z_exp_neg (z k : ℝ) :
    star (-((z : ℝ) : ℂ) * Complex.exp (-(Complex.I * (k : ℂ)))) =
      -((z : ℝ) : ℂ) * Complex.exp (Complex.I * (k : ℂ)) := by
  rw [star_mul', star_neg, Complex.star_def, Complex.conj_ofReal,
    ← Complex.exp_conj, map_neg, map_mul, Complex.conj_I, Complex.conj_ofReal]
  ring_nf

/-! ## Claim C9 -/

/-- Claim C9: for every real Bloch phase `k`, grid of at least two points
and potential function `V`, the matrix assembled by `diagonalisierung` in
`7_1_katharina.py` is Hermitian (the two corner entries are complex
conjugates of each other and every other off-diagonal pair is
conjugate-symmetric), so every eigenvalue of the matrix is real. -/
theorem bloch_matrix_hermitesch (N : ℕ) (h_eff : ℝ) (x : ℕ → ℝ) (V : ℝ → ℝ)
    (k : ℝ) (hN : 2 ≤ N) :
    (diagonalisierung_matrix N h_eff x V k).IsHermitian ∧
      ∀ μ : ℂ, Module.End.HasEigenvalue
          (Matrix.toEuclideanLin (diagonalisierung_matrix N h_eff x V k)) μ →
        (starRingEnd ℂ) μ = μ := by
  have hherm : (diagonalisierung_matrix N h_eff x V k).IsHermitian := by
    show (diagonalisierung_matrix N h_eff x V k).conjTranspose = _
    ext i j
    simp only [Matrix.conjTranspose_apply, diagonalisierung_matrix, Matrix.of_apply]
    by_cases hA : (j : ℕ) = N - 1 ∧ (i : ℕ) = 0
    · obtain ⟨hA1, hA2⟩ := hA
      rw [if_pos ⟨hA1, hA2⟩, if_neg (by omega), if_pos ⟨hA2, hA1⟩, star_neg_z_exp_pos]
    · by_cases hB : (j : ℕ) = 0 ∧ (i : ℕ) = N - 1
      · obtain ⟨hB1, hB2⟩ := hB
        rw [if_neg (by omega), if_pos ⟨hB1, hB2⟩, if_pos ⟨hB2, hB1⟩, star_neg_z_exp_neg]
      · conv_rhs =>
          rw [if_neg (show ¬((i : ℕ) = N - 1 ∧ (j : ℕ) = 0) from fun hc => hB ⟨hc.2, hc.1⟩),
            if_neg (show ¬((i : ℕ) = 0 ∧ (j : ℕ) = N - 1) from fun hc => hA ⟨hc.2, hc.1⟩)]
        rw [if_neg hA, if_neg hB]
        simp only [star_add, apply_ite (star : ℂ → ℂ), star_zero, star_neg,
          Complex.star_def, Complex.conj_ofReal]
        by_cases hij : i = j
        · subst hij
          rfl
        · rw [if_neg (show ¬(j = i) from fun hc => hij hc.symm), if_neg hij]
          ring
  refine ⟨hherm, fun μ hμ => ?_⟩
  exact (Matrix.isHermitian_iff_isSymmetric.mp hherm).conj_eigenvalue_eq_self hμ

/-- Witness for C9 at a concrete input. -/
theorem bloch_matrix_hermitesch_check :
    2 ≤ 2 ∧
      ((diagonalisierung_matrix 2 1 (fun i => (i : ℝ)) (fun _ => 0) 0).IsHermitian ∧
        ∀ μ : ℂ, Module.End.HasEigenvalue
            (Matrix.toEuclideanLin (diagonalisierung_matrix 2 1 (fun i => (i : ℝ)) (fun _ => 0) 0)) μ →
          (starRingEnd ℂ) μ = μ) :=
  ⟨le_refl 2, bloch_matrix_hermitesch 2 1 (fun i => (i : ℝ)) (fun _ => 0) 0 (le_refl 2)⟩

/-! ## Claim C10 : asymptotic error orders of the numerical formulas

The error orders are proved as explicit bounds: for a function with
derivative chain `f, f1, ..., f5` and all of `f2, ..., f5` bounded by `M`,
the forward difference error is at most `M*h`, the central difference error
at most `M*h^2`, the extrapolated difference error at most `M*h^4`, the
midpoint and trapezoid composite quadrature errors at most
`M*(b-a)*h^2` and the Simpson composite error at most `M*(b-a)*h^4`,
where `h = (b-a)/N` is the strip width.  The proofs iterate the mean value
inequality. -/

lemma hasDerivAt_congr_deriv {g : ℝ → ℝ} {d d' : ℝ} {t : ℝ}
    (hg : HasDerivAt g d t) (he : d = d') : HasDerivAt g d' t := he ▸ hg

lemma lipschitz_of_derivBound (u u' : ℝ → ℝ) (M : ℝ)
    (hd : ∀ y, HasDerivAt u (u' y) y) (hb : ∀ y, |u' y| ≤ M) (p q : ℝ) :
    |u p - u q| ≤ M * |p - q| := by
  have h := Convex.norm_image_sub_le_of_norm_hasDerivWithin_le
    (f := u) (s := Set.univ) (C := M)
    (fun y _ => (hd y).hasDerivWithinAt) (fun y _ => hb y) convex_univ
    (Set.mem_univ q) (Set.mem_univ p)
  simpa [Real.norm_eq_abs] using h

lemma linear_bound_on_Icc (g g' : ℝ → ℝ) (B h : ℝ)
    (hd : ∀ t, HasDerivAt g (g' t) t) (hg0 : g 0 = 0)
    (hb : ∀ t ∈ Set.Icc (0 : ℝ) h, |g' t| ≤ B) :
    ∀ t ∈ Set.Icc (0 : ℝ) h, |g t| ≤ B * t := by
  intro t ht
  have h0 : (0 : ℝ) ∈ Set.Icc (0 : ℝ) h := ⟨le_refl 0, le_trans ht.1 ht.2⟩
  have hmv := Convex.norm_image_sub_le_of_norm_hasDerivWithin_le
    (f := g) (s := Set.Icc (0 : ℝ) h) (C := B)
    (fun y hy => (hd y).hasDerivWithinAt) hb (convex_Icc 0 h) h0 ht
  rw [hg0, sub_zero, sub_zero] at hmv
  simpa [Real.norm_eq_abs, abs_of_nonneg ht.1] using hmv

lemma iter_bound_1 (g g1 : ℝ → ℝ) (B h : ℝ) (hh : 0 ≤ h)
    (hd0 : ∀ t, HasDerivAt g (g1 t) t) (h0 : g 0 = 0)
    (hb : ∀ t ∈ Set.Icc (0 : ℝ) h, |g1 t| ≤ B) :
    |g h| ≤ B * h :=
  linear_bound_on_Icc g g1 B h hd0 h0 hb h ⟨hh, le_refl h⟩

lemma iter_bound_2 (g g1 g2 : ℝ → ℝ) (B h : ℝ) (hh : 0 ≤ h)
    (hd0 : ∀ t, HasDerivAt g (g1 t) t) (h0 : g 0 = 0)
    (hd1 : ∀ t, HasDerivAt g1 (g2 t) t) (h1 : g1 0 = 0)
    (hb : ∀ t ∈ Set.Icc (0 : ℝ) h, |g2 t| ≤ B) :
    |g h| ≤ B * h ^ 2 := by
  have hB0 : 0 ≤ B := le_trans (abs_nonneg _) (hb 0 ⟨le_refl 0, hh⟩)
  have h1b : ∀ t ∈ Set.Icc (0 : ℝ) h, |g1 t| ≤ B * h := by
    intro t ht
    exact le_trans (linear_bound_on_Icc g1 g2 B h hd1 h1 hb t ht)
      (mul_le_mul_of_nonneg_left ht.2 hB0)
  calc |g h| ≤ B * h * h := iter_bound_1 g g1 (B * h) h hh hd0 h0 h1b
    _ = B * h ^ 2 := by ring

lemma iter_bound_3 (g g1 g2 g3 : ℝ → ℝ) (B h : ℝ) (hh : 0 ≤ h)
    (hd0 : ∀ t, HasDerivAt g (g1 t) t) (h0 : g 0 = 0)
    (hd1 : ∀ t, HasDerivAt g1 (g2 t) t) (h1 : g1 0 = 0)
    (hd2 : ∀ t, HasDerivAt g2 (g3 t) t) (h2 : g2 0 = 0)
    (hb : ∀ t ∈ Set.Icc (0 : ℝ) h, |g3 t| ≤ B) :
    |g h| ≤ B * h ^ 3 := by
  have hB0 : 0 ≤ B := le_trans (abs_nonneg _) (hb 0 ⟨le_refl 0, hh⟩)
  have h2b : ∀ t ∈ Set.Icc (0 : ℝ) h, |g2 t| ≤ B * h := by
    intro t ht
    exact le_trans (linear_bound_on_Icc g2 g3 B h hd2 h2 hb t ht)
      (mul_le_mul_of_nonneg_left ht.2 hB0)
  calc |g h| ≤ B * h * h ^ 2 :=
        iter_bound_2 g g1 g2 (B * h) h hh hd0 h0 hd1 h1 h2b
    _ = B * h ^ 3 := by ring

lemma iter_bound_4 (g g1 g2 g3 g4 : ℝ → ℝ) (B h : ℝ) (hh : 0 ≤ h)
    (hd0 : ∀ t, HasDerivAt g (g1 t) t) (h0 : g 0 = 0)
    (hd1 : ∀ t, HasDerivAt g1 (g2 t) t) (h1 : g1 0 = 0)
    (hd2 : ∀ t, HasDerivAt g2 (g3 t) t) (h2 : g2 0 = 0)
    (hd3 : ∀ t, HasDerivAt g3 (g4 t) t) (h3 : g3 0 = 0)
    (hb : ∀ t ∈ Set.Icc (0 : ℝ) h, |g4 t| ≤ B) :
    |g h| ≤ B * h ^ 4 := by
  have hB0 : 0 ≤ B := le_trans (abs_nonneg _) (hb 0 ⟨le_refl 0, hh⟩)
  have h3b : ∀ t ∈ Set.Icc (0 : ℝ) h, |g3 t| ≤ B * h := by
    intro t ht
    exact le_trans (linear_bound_on_Icc g3 g4 B h hd3 h3 hb t ht)
      (mul_le_mul_of_nonneg_left ht.2 hB0)
  calc |g h| ≤ B * h * h ^ 3 :=
        iter_bound_3 g g1 g2 g3 (B * h) h hh hd0 h0 hd1 h1 hd2 h2 h3b
    _ = B * h ^ 4 := by ring

lemma hasDerivAt_comp_shift (u u' : ℝ → ℝ) (hd : ∀ y, HasDerivAt u (u' y) y)
    (x c t : ℝ) :
    HasDerivAt (fun s => u (x + s * c)) (u' (x + t * c) * c) t := by
  have hin : HasDerivAt (fun s : ℝ => x + s * c) c t := by
    simpa using ((hasDerivAt_id t).mul_const c).const_add x
  simpa [Function.comp] using (hd (x + t * c)).comp t hin

lemma vor_diff_fehlerordnung (f f1 f2 : ℝ → ℝ) (M : ℝ)
    (hd1 : ∀ y, HasDerivAt f (f1 y) y) (hd2 : ∀ y, HasDerivAt f1 (f2 y) y)
    (hb2 : ∀ y, |f2 y| ≤ M) (x h : ℝ) (hh : 0 < h) :
    |vor_diff f x h - f1 x| ≤ M * h := by
  have hM0 : 0 ≤ M := le_trans (abs_nonneg _) (hb2 x)
  have hgd : ∀ t, HasDerivAt (fun t => f (x + t) - f x - t * f1 x)
      (f1 (x + t) - f1 x) t := by
    intro t
    have hshift : HasDerivAt (fun s => f (x + s)) (f1 (x + t)) t := by
      simpa using hasDerivAt_comp_shift f f1 hd1 x 1 t
    simpa using (hshift.sub_const (f x)).sub ((hasDerivAt_id t).mul_const (f1 x))
  have hb' : ∀ t ∈ Set.Icc (0 : ℝ) h, |f1 (x + t) - f1 x| ≤ M * h := by
    intro t ht
    calc |f1 (x + t) - f1 x| ≤ M * |x + t - x| :=
          lipschitz_of_derivBound f1 f2 M hd2 hb2 (x + t) x
      _ = M * t := by rw [add_sub_cancel_left, abs_of_nonneg ht.1]
      _ ≤ M * h := mul_le_mul_of_nonneg_left ht.2 hM0
  have hg0 : (fun t => f (x + t) - f x - t * f1 x) 0 = 0 := by simp
  have hbound := iter_bound_1 (fun t => f (x + t) - f x - t * f1 x)
    (fun t => f1 (x + t) - f1 x) (M * h) h hh.le hgd hg0 hb'
  have herr : vor_diff f x h - f1 x = (f (x + h) - f x - h * f1 x) / h := by
    unfold vor_diff
    field_simp
  rw [herr, abs_div, abs_of_pos hh, div_le_iff hh]
  calc |f (x + h) - f x - h * f1 x| ≤ M * h * h := hbound
    _ = M * h * h := rfl

lemma zentral_diff_fehlerordnung (f f1 f2 f3 : ℝ → ℝ) (M : ℝ)
    (hd1 : ∀ y, HasDerivAt f (f1 y) y) (hd2 : ∀ y, HasDerivAt f1 (f2 y) y)
    (hd3 : ∀ y, HasDerivAt f2 (f3 y) y)
    (hb3 : ∀ y, |f3 y| ≤ M) (x h : ℝ) (hh : 0 < h) :
    |zentral_diff f x h - f1 x| ≤ M * h ^ 2 := by
  have hM0 : 0 ≤ M := le_trans (abs_nonneg _) (hb3 x)
  -- the difference g and its derivative chain
  have hgd : ∀ t, HasDerivAt
      (fun t => f (x + t * (1 / 2)) - f (x + t * (-(1 / 2))) - t * f1 x)
      ((1 / 2) * (f1 (x + t * (1 / 2)) + f1 (x + t * (-(1 / 2))) - 2 * f1 x)) t := by
    intro t
    have h1 := hasDerivAt_comp_shift f f1 hd1 x (1 / 2) t
    have h2 := hasDerivAt_comp_shift f f1 hd1 x (-(1 / 2)) t
    exact hasDerivAt_congr_deriv
      ((h1.sub h2).sub ((hasDerivAt_id t).mul_const (f1 x))) (by ring)
  have hphid : ∀ t, HasDerivAt
      (fun t => (1 / 2) * (f1 (x + t * (1 / 2)) + f1 (x + t * (-(1 / 2))) - 2 * f1 x))
      ((1 / 2) * (f2 (x + t * (1 / 2)) * (1 / 2) + f2 (x + t * (-(1 / 2))) * (-(1 / 2)))) t := by
    intro t
    have h1 := hasDerivAt_comp_shift f1 f2 hd2 x (1 / 2) t
    have h2 := hasDerivAt_comp_shift f1 f2 hd2 x (-(1 / 2)) t
    exact hasDerivAt_congr_deriv (((h1.add h2).sub_const (2 * f1 x)).const_mul (1 / 2))
      (by ring)
  have hphib : ∀ t ∈ Set.Icc (0 : ℝ) h,
      |(1 / 2) * (f2 (x + t * (1 / 2)) * (1 / 2) + f2 (x + t * (-(1 / 2))) * (-(1 / 2)))| ≤
        (1 / 2) * (M * h) := by
    intro t ht
    have hlip := lipschitz_of_derivBound f2 f3 M hd3 hb3
      (x + t * (1 / 2)) (x + t * (-(1 / 2)))
    have harg : x + t * (1 / 2) - (x + t * (-(1 / 2))) = t := by ring
    rw [harg, abs_of_nonneg ht.1] at hlip
    have he : (1 / 2) * (f2 (x + t * (1 / 2)) * (1 / 2) + f2 (x + t * (-(1 / 2))) * (-(1 / 2))) =
        (1 / 4) * (f2 (x + t * (1 / 2)) - f2 (x + t * (-(1 / 2)))) := by ring
    rw [he, abs_mul]
    have : |(1 / 4 : ℝ)| = 1 / 4 := by norm_num
    rw [this]
    have hMt : M * t ≤ M * h := mul_le_mul_of_nonneg_left ht.2 hM0
    nlinarith [abs_nonneg (f2 (x + t * (1 / 2)) - f2 (x + t * (-(1 / 2))))]
  have hgb := iter_bound_2
    (fun t => f (x + t * (1 / 2)) - f (x + t * (-(1 / 2))) - t * f1 x)
    (fun t => (1 / 2) * (f1 (x + t * (1 / 2)) + f1 (x + t * (-(1 / 2))) - 2 * f1 x))
    (fun t => (1 / 2) * (f2 (x + t * (1 / 2)) * (1 / 2) + f2 (x + t * (-(1 / 2))) * (-(1 / 2))))
    ((1 / 2) * (M * h)) h hh.le hgd (by simp) hphid (by simp; ring) hphib
  -- rewrite the error as g h / h
  have herr : zentral_diff f x h - f1 x =
      (f (x + h * (1 / 2)) - f (x + h * (-(1 / 2))) - h * f1 x) / h := by
    unfold zentral_diff
    rw [show x + h / 2 = x + h * (1 / 2) by ring, show x - h / 2 = x + h * (-(1 / 2)) by ring]
    field_simp
  rw [herr, abs_div, abs_of_pos hh, div_le_iff hh]
  calc |f (x + h * (1 / 2)) - f (x + h * (-(1 / 2))) - h * f1 x| ≤
        (1 / 2) * (M * h) * h ^ 2 := hgb
    _ ≤ M * h ^ 2 * h := by
        nlinarith [mul_nonneg hM0 (mul_nonneg (mul_nonneg hh.le hh.le) hh.le)]

lemma extrapol_diff_fehlerordnung (f f1 f2 f3 f4 f5 : ℝ → ℝ) (M : ℝ)
    (hd1 : ∀ y, HasDerivAt f (f1 y) y) (hd2 : ∀ y, HasDerivAt f1 (f2 y) y)
    (hd3 : ∀ y, HasDerivAt f2 (f3 y) y) (hd4 : ∀ y, HasDerivAt f3 (f4 y) y)
    (hd5 : ∀ y, HasDerivAt f4 (f5 y) y)
    (hb5 : ∀ y, |f5 y| ≤ M) (x h : ℝ) (hh : 0 < h) :
    |extrapol_diff f x h - f1 x| ≤ M * h ^ 4 := by
  have hM0 : 0 ≤ M := le_trans (abs_nonneg _) (hb5 x)
  have hgd : ∀ t, HasDerivAt
      (fun t => 8 * (f (x + t * (1 / 4)) - f (x + t * (-(1 / 4)))) -
        (f (x + t * (1 / 2)) - f (x + t * (-(1 / 2)))) - 3 * (t * f1 x))
      (2 * (f1 (x + t * (1 / 4)) + f1 (x + t * (-(1 / 4)))) -
        (1 / 2) * (f1 (x + t * (1 / 2)) + f1 (x + t * (-(1 / 2)))) - 3 * f1 x) t := by
    intro t
    have hq1 := hasDerivAt_comp_shift f f1 hd1 x (1 / 4) t
    have hq2 := hasDerivAt_comp_shift f f1 hd1 x (-(1 / 4)) t
    have hq3 := hasDerivAt_comp_shift f f1 hd1 x (1 / 2) t
    have hq4 := hasDerivAt_comp_shift f f1 hd1 x (-(1 / 2)) t
    exact hasDerivAt_congr_deriv
      ((((hq1.sub hq2).const_mul 8).sub (hq3.sub hq4)).sub
        (((hasDerivAt_id t).mul_const (f1 x)).const_mul 3)) (by ring)
  have hg1d : ∀ t, HasDerivAt
      (fun t => 2 * (f1 (x + t * (1 / 4)) + f1 (x + t * (-(1 / 4)))) -
        (1 / 2) * (f1 (x + t * (1 / 2)) + f1 (x + t * (-(1 / 2)))) - 3 * f1 x)
      ((1 / 2) * (f2 (x + t * (1 / 4)) - f2 (x + t * (-(1 / 4)))) -
        (1 / 4) * (f2 (x + t * (1 / 2)) - f2 (x + t * (-(1 / 2))))) t := by
    intro t
    have hq1 := hasDerivAt_comp_shift f1 f2 hd2 x (1 / 4) t
    have hq2 := hasDerivAt_comp_shift f1 f2 hd2 x (-(1 / 4)) t
    have hq3 := hasDerivAt_comp_shift f1 f2 hd2 x (1 / 2) t
    have hq4 := hasDerivAt_comp_shift f1 f2 hd2 x (-(1 / 2)) t
    exact hasDerivAt_congr_deriv
      ((((hq1.add hq2).const_mul 2).sub ((hq3.add hq4).const_mul (1 / 2))).sub_const
        (3 * f1 x)) (by ring)
  have hg2d : ∀ t, HasDerivAt
      (fun t => (1 / 2) * (f2 (x + t * (1 / 4)) - f2 (x + t * (-(1 / 4)))) -
        (1 / 4) * (f2 (x + t * (1 / 2)) - f2 (x + t * (-(1 / 2)))))
      ((1 / 8) * (f3 (x + t * (1 / 4)) + f3 (x + t * (-(1 / 4)))) -
        (1 / 8) * (f3 (x + t * (1 / 2)) + f3 (x + t * (-(1 / 2))))) t := by
    intro t
    have hq1 := hasDerivAt_comp_shift f2 f3 hd3 x (1 / 4) t
    have hq2 := hasDerivAt_comp_shift f2 f3 hd3 x (-(1 / 4)) t
    have hq3 := hasDerivAt_comp_shift f2 f3 hd3 x (1 / 2) t
    have hq4 := hasDerivAt_comp_shift f2 f3 hd3 x (-(1 / 2)) t
    exact hasDerivAt_congr_deriv
      (((hq1.sub hq2).const_mul (1 / 2)).sub ((hq3.sub hq4).const_mul (1 / 4)))
      (by ring)
  have hg3d : ∀ t, HasDerivAt
      (fun t => (1 / 8) * (f3 (x + t * (1 / 4)) + f3 (x + t * (-(1 / 4)))) -
        (1 / 8) * (f3 (x + t * (1 / 2)) + f3 (x + t * (-(1 / 2)))))
      ((1 / 32) * (f4 (x + t * (1 / 4)) - f4 (x + t * (-(1 / 4)))) -
        (1 / 16) * (f4 (x + t * (1 / 2)) - f4 (x + t * (-(1 / 2))))) t := by
    intro t
    have hq1 := hasDerivAt_comp_shift f3 f4 hd4 x (1 / 4) t
    have hq2 := hasDerivAt_comp_shift f3 f4 hd4 x (-(1 / 4)) t
    have hq3 := hasDerivAt_comp_shift f3 f4 hd4 x (1 / 2) t
    have hq4 := hasDerivAt_comp_shift f3 f4 hd4 x (-(1 / 2)) t
    exact hasDerivAt_congr_deriv
      (((hq1.add hq2).const_mul (1 / 8)).sub ((hq3.add hq4).const_mul (1 / 8)))
      (by ring)
  have hg4b : ∀ t ∈ Set.Icc (0 : ℝ) h,
      |(1 / 32) * (f4 (x + t * (1 / 4)) - f4 (x + t * (-(1 / 4)))) -
        (1 / 16) * (f4 (x + t * (1 / 2)) - f4 (x + t * (-(1 / 2))))| ≤ M * h := by
    intro t ht
    have hlipA := lipschitz_of_derivBound f4 f5 M hd5 hb5
      (x + t * (1 / 4)) (x + t * (-(1 / 4)))
    have hlipB := lipschitz_of_derivBound f4 f5 M hd5 hb5
      (x + t * (1 / 2)) (x + t * (-(1 / 2)))
    rw [show x + t * (1 / 4) - (x + t * (-(1 / 4))) = t * (1 / 2) by ring] at hlipA
    rw [show x + t * (1 / 2) - (x + t * (-(1 / 2))) = t by ring] at hlipB
    rw [abs_of_nonneg (by linarith [ht.1] : (0 : ℝ) ≤ t * (1 / 2))] at hlipA
    rw [abs_of_nonneg ht.1] at hlipB
    rw [sub_eq_add_neg]
    refine (abs_add _ _).trans ?_
    rw [abs_neg, abs_mul, abs_mul]
    rw [show |((1 : ℝ) / 32)| = 1 / 32 by norm_num, show |((1 : ℝ) / 16)| = 1 / 16 by norm_num]
    have hMt : M * t ≤ M * h := mul_le_mul_of_nonneg_left ht.2 hM0
    nlinarith [abs_nonneg (f4 (x + t * (1 / 4)) - f4 (x + t * (-(1 / 4)))),
      abs_nonneg (f4 (x + t * (1 / 2)) - f4 (x + t * (-(1 / 2))))]
  have hgb := iter_bound_4
    (fun t => 8 * (f (x + t * (1 / 4)) - f (x + t * (-(1 / 4)))) -
      (f (x + t * (1 / 2)) - f (x + t * (-(1 / 2)))) - 3 * (t * f1 x))
    (fun t => 2 * (f1 (x + t * (1 / 4)) + f1 (x + t * (-(1 / 4)))) -
      (1 / 2) * (f1 (x + t * (1 / 2)) + f1 (x + t * (-(1 / 2)))) - 3 * f1 x)
    (fun t => (1 / 2) * (f2 (x + t * (1 / 4)) - f2 (x + t * (-(1 / 4)))) -
      (1 / 4) * (f2 (x + t * (1 / 2)) - f2 (x + t * (-(1 / 2)))))
    (fun t => (1 / 8) * (f3 (x + t * (1 / 4)) + f3 (x + t * (-(1 / 4)))) -
      (1 / 8) * (f3 (x + t * (1 / 2)) + f3 (x + t * (-(1 / 2)))))
    (fun t => (1 / 32) * (f4 (x + t * (1 / 4)) - f4 (x + t * (-(1 / 4)))) -
      (1 / 16) * (f4 (x + t * (1 / 2)) - f4 (x + t * (-(1 / 2)))))
    (M * h) h hh.le hgd (by simp only [zero_mul, add_zero, mul_zero]; ring)
    hg1d (by simp only [zero_mul, add_zero, mul_zero]; ring)
    hg2d (by simp only [zero_mul, add_zero, mul_zero]; ring)
    hg3d (by simp only [zero_mul, add_zero, mul_zero]; ring) hg4b
  have herr : extrapol_diff f x h - f1 x =
      (8 * (f (x + h * (1 / 4)) - f (x + h * (-(1 / 4)))) -
        (f (x + h * (1 / 2)) - f (x + h * (-(1 / 2)))) - 3 * (h * f1 x)) / (3 * h) := by
    unfold extrapol_diff
    rw [show x + h / 4 = x + h * (1 / 4) by ring, show x - h / 4 = x + h * (-(1 / 4)) by ring,
      show x + h / 2 = x + h * (1 / 2) by ring, show x - h / 2 = x + h * (-(1 / 2)) by ring]
    field_simp
    ring
  have h3h : (0 : ℝ) < 3 * h := by linarith
  rw [herr, abs_div, abs_of_pos h3h, div_le_iff₀ h3h]
  calc |8 * (f (x + h * (1 / 4)) - f (x + h * (-(1 / 4)))) -
        (f (x + h * (1 / 2)) - f (x + h * (-(1 / 2)))) - 3 * (h * f1 x)| ≤
        M * h * h ^ 4 := hgb
    _ ≤ M * h ^ 4 * (3 * h) := by
        nlinarith [mul_nonneg hM0 (pow_nonneg hh.le 5)]

lemma mittelpunkt_streifen (f f1 f2 : ℝ → ℝ) (M : ℝ)
    (hd1 : ∀ y, HasDerivAt f (f1 y) y) (hd2 : ∀ y, HasDerivAt f1 (f2 y) y)
    (hb2 : ∀ y, |f2 y| ≤ M) (c h : ℝ) (hh : 0 ≤ h) :
    |h * f (c + h / 2) - ∫ s in c..(c + h), f s| ≤ M * h ^ 3 := by
  have hcont : Continuous f := by
    have hdiff : Differentiable ℝ f := fun y => (hd1 y).differentiableAt
    exact hdiff.continuous
  have hM0 : 0 ≤ M := le_trans (abs_nonneg _) (hb2 c)
  have hFTCp : ∀ t, HasDerivAt (fun u => ∫ s in (c + h / 2)..(c + h / 2 + u), f s)
      (f (c + h / 2 + t)) t := by
    intro t
    have houter := (hcont.integral_hasStrictDerivAt (c + h / 2) (c + h / 2 + t)).hasDerivAt
    have hin : HasDerivAt (fun u : ℝ => c + h / 2 + u) 1 t := (hasDerivAt_id t).const_add (c + h / 2)
    exact hasDerivAt_congr_deriv (houter.comp t hin) (by ring)
  have hFTCm : ∀ t, HasDerivAt (fun u => ∫ s in (c + h / 2)..(c + h / 2 - u), f s)
      (-f (c + h / 2 - t)) t := by
    intro t
    have houter := (hcont.integral_hasStrictDerivAt (c + h / 2) (c + h / 2 - t)).hasDerivAt
    have hin : HasDerivAt (fun u : ℝ => c + h / 2 - u) (-1) t := (hasDerivAt_id t).const_sub (c + h / 2)
    exact hasDerivAt_congr_deriv (houter.comp t hin) (by ring)
  have hGd : ∀ t, HasDerivAt
      (fun t => (∫ s in (c + h / 2)..(c + h / 2 + t), f s) -
        (∫ s in (c + h / 2)..(c + h / 2 - t), f s) - 2 * t * f (c + h / 2))
      (f (c + h / 2 + t) + f (c + h / 2 - t) - 2 * f (c + h / 2)) t := by
    intro t
    exact hasDerivAt_congr_deriv
      (((hFTCp t).sub (hFTCm t)).sub
        (((hasDerivAt_id t).const_mul 2).mul_const (f (c + h / 2)))) (by ring)
  have hphid : ∀ t, HasDerivAt
      (fun t => f (c + h / 2 + t) + f (c + h / 2 - t) - 2 * f (c + h / 2))
      (f1 (c + h / 2 + t) - f1 (c + h / 2 - t)) t := by
    intro t
    have hp : HasDerivAt (fun u => f (c + h / 2 + u)) (f1 (c + h / 2 + t)) t := by
      have := (hd1 (c + h / 2 + t)).comp t ((hasDerivAt_id t).const_add (c + h / 2))
      exact hasDerivAt_congr_deriv this (by ring)
    have hm : HasDerivAt (fun u => f (c + h / 2 - u)) (-f1 (c + h / 2 - t)) t := by
      have := (hd1 (c + h / 2 - t)).comp t ((hasDerivAt_id t).const_sub (c + h / 2))
      exact hasDerivAt_congr_deriv this (by ring)
    exact hasDerivAt_congr_deriv ((hp.add hm).sub_const (2 * f (c + h / 2))) (by ring)
  have hphib : ∀ t ∈ Set.Icc (0 : ℝ) (h / 2),
      |f1 (c + h / 2 + t) - f1 (c + h / 2 - t)| ≤ M * h := by
    intro t ht
    have hlip := lipschitz_of_derivBound f1 f2 M hd2 hb2 (c + h / 2 + t) (c + h / 2 - t)
    rw [show c + h / 2 + t - (c + h / 2 - t) = 2 * t by ring,
      abs_of_nonneg (by linarith [ht.1] : (0 : ℝ) ≤ 2 * t)] at hlip
    have : M * (2 * t) ≤ M * h := by
      have h2t : 2 * t ≤ h := by linarith [ht.2]
      exact mul_le_mul_of_nonneg_left h2t hM0
    linarith
  have hGb := iter_bound_2
    (fun t => (∫ s in (c + h / 2)..(c + h / 2 + t), f s) -
      (∫ s in (c + h / 2)..(c + h / 2 - t), f s) - 2 * t * f (c + h / 2))
    (fun t => f (c + h / 2 + t) + f (c + h / 2 - t) - 2 * f (c + h / 2))
    (fun t => f1 (c + h / 2 + t) - f1 (c + h / 2 - t))
    (M * h) (h / 2) (by linarith) hGd (by simp) hphid (by simp; ring) hphib
  have hadd := intervalIntegral.integral_add_adjacent_intervals (a := c) (b := c + h / 2)
    (c := c + h) (μ := MeasureTheory.volume) (f := f)
    (hcont.intervalIntegrable _ _) (hcont.intervalIntegrable _ _)
  have hkey : (∫ s in (c + h / 2)..(c + h / 2 + (h / 2)), f s) -
      (∫ s in (c + h / 2)..(c + h / 2 - h / 2), f s) - 2 * (h / 2) * f (c + h / 2) =
      (∫ s in c..(c + h), f s) - h * f (c + h / 2) := by
    rw [show c + h / 2 + h / 2 = c + h by ring, show c + h / 2 - h / 2 = c by ring,
      intervalIntegral.integral_symm c (c + h / 2),
      show (2 : ℝ) * (h / 2) = h by ring]
    linarith [hadd]
  calc |h * f (c + h / 2) - ∫ s in c..(c + h), f s| =
        |(∫ s in c..(c + h), f s) - h * f (c + h / 2)| := abs_sub_comm _ _
    _ = |(∫ s in (c + h / 2)..(c + h / 2 + (h / 2)), f s) -
        (∫ s in (c + h / 2)..(c + h / 2 - h / 2), f s) - 2 * (h / 2) * f (c + h / 2)| := by
        rw [hkey]
    _ ≤ M * h * (h / 2) ^ 2 := hGb
    _ ≤ M * h ^ 3 := by nlinarith [mul_nonneg hM0 (mul_nonneg (mul_nonneg hh hh) hh)]

lemma trapez_streifen (f f1 f2 : ℝ → ℝ) (M : ℝ)
    (hd1 : ∀ y, HasDerivAt f (f1 y) y) (hd2 : ∀ y, HasDerivAt f1 (f2 y) y)
    (hb2 : ∀ y, |f2 y| ≤ M) (c h : ℝ) (hh : 0 ≤ h) :
    |h / 2 * (f c + f (c + h)) - ∫ s in c..(c + h), f s| ≤ M * h ^ 3 := by
  have hcont : Continuous f := by
    have hdiff : Differentiable ℝ f := fun y => (hd1 y).differentiableAt
    exact hdiff.continuous
  have hM0 : 0 ≤ M := le_trans (abs_nonneg _) (hb2 c)
  have hp : ∀ t, HasDerivAt (fun u => f (c + u)) (f1 (c + t)) t := by
    intro t
    exact hasDerivAt_congr_deriv
      ((hd1 (c + t)).comp t ((hasDerivAt_id t).const_add c)) (by ring)
  have hp1 : ∀ t, HasDerivAt (fun u => f1 (c + u)) (f2 (c + t)) t := by
    intro t
    exact hasDerivAt_congr_deriv
      ((hd2 (c + t)).comp t ((hasDerivAt_id t).const_add c)) (by ring)
  have hFTC : ∀ t, HasDerivAt (fun u => ∫ s in c..(c + u), f s) (f (c + t)) t := by
    intro t
    have houter := (hcont.integral_hasStrictDerivAt c (c + t)).hasDerivAt
    exact hasDerivAt_congr_deriv (houter.comp t ((hasDerivAt_id t).const_add c)) (by ring)
  have hTd : ∀ t, HasDerivAt
      (fun t => (∫ s in c..(c + t), f s) - t / 2 * (f c + f (c + t)))
      ((1 / 2) * (f (c + t) - f c) - t / 2 * f1 (c + t)) t := by
    intro t
    have hprod := ((hasDerivAt_id t).div_const 2).mul ((hp t).const_add (f c))
    exact hasDerivAt_congr_deriv ((hFTC t).sub hprod) (by simp only [id_eq]; ring)
  have hT1d : ∀ t, HasDerivAt
      (fun t => (1 / 2) * (f (c + t) - f c) - t / 2 * f1 (c + t))
      (-(t / 2 * f2 (c + t))) t := by
    intro t
    have hleft := ((hp t).sub_const (f c)).const_mul (1 / 2)
    have hprod := ((hasDerivAt_id t).div_const 2).mul (hp1 t)
    exact hasDerivAt_congr_deriv (hleft.sub hprod) (by simp only [id_eq]; ring)
  have hT2b : ∀ t ∈ Set.Icc (0 : ℝ) h, |(-(t / 2 * f2 (c + t)))| ≤ M * h := by
    intro t ht
    rw [abs_neg, abs_mul, abs_of_nonneg (by linarith [ht.1] : (0 : ℝ) ≤ t / 2)]
    have hf2 := hb2 (c + t)
    have habs : (0 : ℝ) ≤ |f2 (c + t)| := abs_nonneg _
    nlinarith [ht.1, ht.2]
  have hTb := iter_bound_2
    (fun t => (∫ s in c..(c + t), f s) - t / 2 * (f c + f (c + t)))
    (fun t => (1 / 2) * (f (c + t) - f c) - t / 2 * f1 (c + t))
    (fun t => -(t / 2 * f2 (c + t)))
    (M * h) h hh hTd (by simp) hT1d (by simp) hT2b
  calc |h / 2 * (f c + f (c + h)) - ∫ s in c..(c + h), f s| =
        |(∫ s in c..(c + h), f s) - h / 2 * (f c + f (c + h))| := abs_sub_comm _ _
    _ ≤ M * h * h ^ 2 := hTb
    _ = M * h ^ 3 := by ring

lemma simpson_streifen (f f1 f2 f3 f4 : ℝ → ℝ) (M : ℝ)
    (hd1 : ∀ y, HasDerivAt f (f1 y) y) (hd2 : ∀ y, HasDerivAt f1 (f2 y) y)
    (hd3 : ∀ y, HasDerivAt f2 (f3 y) y) (hd4 : ∀ y, HasDerivAt f3 (f4 y) y)
    (hb4 : ∀ y, |f4 y| ≤ M) (c h : ℝ) (hh : 0 ≤ h) :
    |h / 6 * (f c + 4 * f (c + h / 2) + f (c + h)) - ∫ s in c..(c + h), f s| ≤
      M * h ^ 5 := by
  have hcont : Continuous f := by
    have hdiff : Differentiable ℝ f := fun y => (hd1 y).differentiableAt
    exact hdiff.continuous
  have hM0 : 0 ≤ M := le_trans (abs_nonneg _) (hb4 c)
  -- the shifted compositions and their derivatives
  have hpf : ∀ t, HasDerivAt (fun u => f (c + h / 2 + u)) (f1 (c + h / 2 + t)) t := by
    intro t
    exact hasDerivAt_congr_deriv
      ((hd1 (c + h / 2 + t)).comp t ((hasDerivAt_id t).const_add (c + h / 2))) (by ring)
  have hmf : ∀ t, HasDerivAt (fun u => f (c + h / 2 - u)) (-f1 (c + h / 2 - t)) t := by
    intro t
    exact hasDerivAt_congr_deriv
      ((hd1 (c + h / 2 - t)).comp t ((hasDerivAt_id t).const_sub (c + h / 2))) (by ring)
  have hpf1 : ∀ t, HasDerivAt (fun u => f1 (c + h / 2 + u)) (f2 (c + h / 2 + t)) t := by
    intro t
    exact hasDerivAt_congr_deriv
      ((hd2 (c + h / 2 + t)).comp t ((hasDerivAt_id t).const_add (c + h / 2))) (by ring)
  have hmf1 : ∀ t, HasDerivAt (fun u => f1 (c + h / 2 - u)) (-f2 (c + h / 2 - t)) t := by
    intro t
    exact hasDerivAt_congr_deriv
      ((hd2 (c + h / 2 - t)).comp t ((hasDerivAt_id t).const_sub (c + h / 2))) (by ring)
  have hpf2 : ∀ t, HasDerivAt (fun u => f2 (c + h / 2 + u)) (f3 (c + h / 2 + t)) t := by
    intro t
    exact hasDerivAt_congr_deriv
      ((hd3 (c + h / 2 + t)).comp t ((hasDerivAt_id t).const_add (c + h / 2))) (by ring)
  have hmf2 : ∀ t, HasDerivAt (fun u => f2 (c + h / 2 - u)) (-f3 (c + h / 2 - t)) t := by
    intro t
    exact hasDerivAt_congr_deriv
      ((hd3 (c + h / 2 - t)).comp t ((hasDerivAt_id t).const_sub (c + h / 2))) (by ring)
  have hFTCp : ∀ t, HasDerivAt (fun u => ∫ s in (c + h / 2)..(c + h / 2 + u), f s)
      (f (c + h / 2 + t)) t := by
    intro t
    have houter := (hcont.integral_hasStrictDerivAt (c + h / 2) (c + h / 2 + t)).hasDerivAt
    exact hasDerivAt_congr_deriv
      (houter.comp t ((hasDerivAt_id t).const_add (c + h / 2))) (by ring)
  have hFTCm : ∀ t, HasDerivAt (fun u => ∫ s in (c + h / 2)..(c + h / 2 - u), f s)
      (-f (c + h / 2 - t)) t := by
    intro t
    have houter := (hcont.integral_hasStrictDerivAt (c + h / 2) (c + h / 2 - t)).hasDerivAt
    exact hasDerivAt_congr_deriv
      (houter.comp t ((hasDerivAt_id t).const_sub (c + h / 2))) (by ring)
  -- the chain S, S1, S2 with the final derivative value
  have hSd : ∀ t, HasDerivAt
      (fun t => (∫ s in (c + h / 2)..(c + h / 2 + t), f s) -
        (∫ s in (c + h / 2)..(c + h / 2 - t), f s) -
        t / 3 * (f (c + h / 2 - t) + 4 * f (c + h / 2) + f (c + h / 2 + t)))
      ((2 / 3) * (f (c + h / 2 + t) + f (c + h / 2 - t)) - (4 / 3) * f (c + h / 2) -
        t / 3 * (f1 (c + h / 2 + t) - f1 (c + h / 2 - t))) t := by
    intro t
    have hprod := ((hasDerivAt_id t).div_const 3).mul
      (((hmf t).add_const (4 * f (c + h / 2))).add (hpf t))
    exact hasDerivAt_congr_deriv (((hFTCp t).sub (hFTCm t)).sub hprod) (by simp only [id_eq]; ring)
  have hS1d : ∀ t, HasDerivAt
      (fun t => (2 / 3) * (f (c + h / 2 + t) + f (c + h / 2 - t)) - (4 / 3) * f (c + h / 2) -
        t / 3 * (f1 (c + h / 2 + t) - f1 (c + h / 2 - t)))
      ((1 / 3) * (f1 (c + h / 2 + t) - f1 (c + h / 2 - t)) -
        t / 3 * (f2 (c + h / 2 + t) + f2 (c + h / 2 - t))) t := by
    intro t
    have hleft := (((hpf t).add (hmf t)).const_mul (2 / 3)).sub_const (4 / 3 * f (c + h / 2))
    have hprod := ((hasDerivAt_id t).div_const 3).mul ((hpf1 t).sub (hmf1 t))
    exact hasDerivAt_congr_deriv (hleft.sub hprod) (by simp only [id_eq]; ring)
  have hS2d : ∀ t, HasDerivAt
      (fun t => (1 / 3) * (f1 (c + h / 2 + t) - f1 (c + h / 2 - t)) -
        t / 3 * (f2 (c + h / 2 + t) + f2 (c + h / 2 - t)))
      (-(t / 3 * (f3 (c + h / 2 + t) - f3 (c + h / 2 - t)))) t := by
    intro t
    have hleft := (((hpf1 t).sub (hmf1 t)).const_mul (1 / 3))
    have hprod := ((hasDerivAt_id t).div_const 3).mul ((hpf2 t).add (hmf2 t))
    exact hasDerivAt_congr_deriv (hleft.sub hprod) (by simp only [id_eq]; ring)
  have hS3b : ∀ t ∈ Set.Icc (0 : ℝ) (h / 2),
      |(-(t / 3 * (f3 (c + h / 2 + t) - f3 (c + h / 2 - t))))| ≤ M * h ^ 2 := by
    intro t ht
    have hlip := lipschitz_of_derivBound f3 f4 M hd4 hb4 (c + h / 2 + t) (c + h / 2 - t)
    rw [show c + h / 2 + t - (c + h / 2 - t) = 2 * t by ring,
      abs_of_nonneg (by linarith [ht.1] : (0 : ℝ) ≤ 2 * t)] at hlip
    rw [abs_neg, abs_mul, abs_of_nonneg (by linarith [ht.1] : (0 : ℝ) ≤ t / 3)]
    have habs : (0 : ℝ) ≤ |f3 (c + h / 2 + t) - f3 (c + h / 2 - t)| := abs_nonneg _
    nlinarith [ht.1, ht.2, mul_nonneg hM0 hh]
  have hSb := iter_bound_3
    (fun t => (∫ s in (c + h / 2)..(c + h / 2 + t), f s) -
      (∫ s in (c + h / 2)..(c + h / 2 - t), f s) -
      t / 3 * (f (c + h / 2 - t) + 4 * f (c + h / 2) + f (c + h / 2 + t)))
    (fun t => (2 / 3) * (f (c + h / 2 + t) + f (c + h / 2 - t)) - (4 / 3) * f (c + h / 2) -
      t / 3 * (f1 (c + h / 2 + t) - f1 (c + h / 2 - t)))
    (fun t => (1 / 3) * (f1 (c + h / 2 + t) - f1 (c + h / 2 - t)) -
      t / 3 * (f2 (c + h / 2 + t) + f2 (c + h / 2 - t)))
    (fun t => -(t / 3 * (f3 (c + h / 2 + t) - f3 (c + h / 2 - t))))
    (M * h ^ 2) (h / 2) (by linarith) hSd (by simp) hS1d (by simp; ring) hS2d (by simp) hS3b
  have hadd := intervalIntegral.integral_add_adjacent_intervals (a := c) (b := c + h / 2)
    (c := c + h) (μ := MeasureTheory.volume) (f := f)
    (hcont.intervalIntegrable _ _) (hcont.intervalIntegrable _ _)
  have hkey : (∫ s in (c + h / 2)..(c + h / 2 + (h / 2)), f s) -
      (∫ s in (c + h / 2)..(c + h / 2 - (h / 2)), f s) -
      (h / 2) / 3 * (f (c + h / 2 - (h / 2)) + 4 * f (c + h / 2) + f (c + h / 2 + (h / 2))) =
      (∫ s in c..(c + h), f s) - h / 6 * (f c + 4 * f (c + h / 2) + f (c + h)) := by
    rw [show c + h / 2 + (h / 2) = c + h by ring, show c + h / 2 - (h / 2) = c by ring,
      intervalIntegral.integral_symm c (c + h / 2),
      show (h : ℝ) / 2 / 3 = h / 6 by ring]
    linarith [hadd]
  calc |h / 6 * (f c + 4 * f (c + h / 2) + f (c + h)) - ∫ s in c..(c + h), f s| =
        |(∫ s in c..(c + h), f s) - h / 6 * (f c + 4 * f (c + h / 2) + f (c + h))| :=
        abs_sub_comm _ _
    _ = |(∫ s in (c + h / 2)..(c + h / 2 + (h / 2)), f s) -
        (∫ s in (c + h / 2)..(c + h / 2 - (h / 2)), f s) -
        (h / 2) / 3 * (f (c + h / 2 - (h / 2)) + 4 * f (c + h / 2) + f (c + h / 2 + (h / 2)))| := by
        rw [hkey]
    _ ≤ M * h ^ 2 * (h / 2) ^ 3 := hSb
    _ ≤ M * h ^ 5 := by nlinarith [mul_nonneg hM0 (pow_nonneg hh 5)]

lemma list_range_map_sum (N : ℕ) (fn : ℕ → ℝ) :
    ((List.range N).map fn).sum = ∑ i in Finset.range N, fn i := by
  induction N with
  | zero => simp
  | succ n ih =>
    rw [List.range_succ, List.map_append, List.sum_append, Finset.sum_range_succ, ih]
    simp

lemma quadH_eq (a b : ℝ) (N : ℕ) (hN : 1 ≤ N) : quadH a b N = (b - a) / (N : ℝ) := by
  unfold quadH
  split_ifs with h1
  · subst h1
    norm_num
  · rfl

lemma linspace_false_eq (a b : ℝ) (N : ℕ) :
    linspace a b N false =
      (List.range N).map (fun i : ℕ => a + (i : ℝ) * ((b - a) / (N : ℝ))) := by
  simp [linspace]

lemma gitter_start (a hv : ℝ) : a + ((0 : ℕ) : ℝ) * hv = a := by simp

lemma gitter_ende (a b : ℝ) (N : ℕ) (hNne : (N : ℝ) ≠ 0) :
    a + (N : ℝ) * ((b - a) / (N : ℝ)) = b := by
  field_simp

lemma gitter_schritt (a hv : ℝ) (k : ℕ) :
    a + ((k + 1 : ℕ) : ℝ) * hv = a + (k : ℝ) * hv + hv := by
  push_cast
  ring

lemma integral_summe (f : ℝ → ℝ) (hcont : Continuous f) (a b : ℝ) (N : ℕ)
    (hN : 1 ≤ N) :
    ∫ s in a..b, f s =
      ∑ i in Finset.range N,
        ∫ s in (a + (i : ℝ) * ((b - a) / (N : ℝ)))..(a + (i : ℝ) * ((b - a) / (N : ℝ)) + (b - a) / (N : ℝ)), f s := by
  have hNne : (N : ℝ) ≠ 0 := Nat.cast_ne_zero.mpr (by omega)
  have hsum := intervalIntegral.sum_integral_adjacent_intervals
    (a := fun k : ℕ => a + (k : ℝ) * ((b - a) / (N : ℝ))) (n := N)
    (f := f) (μ := MeasureTheory.volume)
    (fun k _ => hcont.intervalIntegrable _ _)
  simp only [] at hsum
  rw [gitter_start, gitter_ende a b N hNne] at hsum
  rw [← hsum]
  refine Finset.sum_congr rfl ?_
  intro k _
  rw [gitter_schritt]

lemma mittelpunkt_komposit (f f1 f2 : ℝ → ℝ) (M : ℝ)
    (hd1 : ∀ y, HasDerivAt f (f1 y) y) (hd2 : ∀ y, HasDerivAt f1 (f2 y) y)
    (hb2 : ∀ y, |f2 y| ≤ M) (a b : ℝ) (N : ℕ) (hab : a ≤ b) (hN : 1 ≤ N) :
    |mittelpunkt_int f a b N - ∫ s in a..b, f s| ≤
      M * (b - a) * ((b - a) / (N : ℝ)) ^ 2 := by
  have hcont : Continuous f := by
    have hdiff : Differentiable ℝ f := fun y => (hd1 y).differentiableAt
    exact hdiff.continuous
  have hNne : (N : ℝ) ≠ 0 := Nat.cast_ne_zero.mpr (by omega)
  have hv0 : 0 ≤ (b - a) / (N : ℝ) := div_nonneg (by linarith) (Nat.cast_nonneg N)
  have hval : mittelpunkt_int f a b N =
      ∑ i in Finset.range N,
        (b - a) / (N : ℝ) * f (a + (i : ℝ) * ((b - a) / (N : ℝ)) + (b - a) / (N : ℝ) / 2) := by
    unfold mittelpunkt_int
    rw [quadH_eq a b N hN, linspace_false_eq, List.map_map, list_range_map_sum,
      Finset.mul_sum]
    rfl
  rw [hval, integral_summe f hcont a b N hN, ← Finset.sum_sub_distrib]
  refine le_trans (Finset.abs_sum_le_sum_abs _ _) ?_
  have hstrip : ∀ i ∈ Finset.range N,
      |(b - a) / (N : ℝ) * f (a + (i : ℝ) * ((b - a) / (N : ℝ)) + (b - a) / (N : ℝ) / 2) -
        ∫ s in (a + (i : ℝ) * ((b - a) / (N : ℝ)))..(a + (i : ℝ) * ((b - a) / (N : ℝ)) + (b - a) / (N : ℝ)), f s| ≤
      M * ((b - a) / (N : ℝ)) ^ 3 := by
    intro i _
    exact mittelpunkt_streifen f f1 f2 M hd1 hd2 hb2
      (a + (i : ℝ) * ((b - a) / (N : ℝ))) ((b - a) / (N : ℝ)) hv0
  refine le_trans (Finset.sum_le_sum hstrip) ?_
  rw [Finset.sum_const, Finset.card_range, nsmul_eq_mul]
  have hNh : (N : ℝ) * ((b - a) / (N : ℝ)) = b - a := by field_simp
  refine le_of_eq ?_
  field_simp
  ring

lemma trapez_komposit (f f1 f2 : ℝ → ℝ) (M : ℝ)
    (hd1 : ∀ y, HasDerivAt f (f1 y) y) (hd2 : ∀ y, HasDerivAt f1 (f2 y) y)
    (hb2 : ∀ y, |f2 y| ≤ M) (a b : ℝ) (N : ℕ) (hab : a ≤ b) (hN : 1 ≤ N) :
    |trapez_int f a b N - ∫ s in a..b, f s| ≤
      M * (b - a) * ((b - a) / (N : ℝ)) ^ 2 := by
  have hcont : Continuous f := by
    have hdiff : Differentiable ℝ f := fun y => (hd1 y).differentiableAt
    exact hdiff.continuous
  have hNne : (N : ℝ) ≠ 0 := Nat.cast_ne_zero.mpr (by omega)
  have hv0 : 0 ≤ (b - a) / (N : ℝ) := div_nonneg (by linarith) (Nat.cast_nonneg N)
  have hval : trapez_int f a b N =
      ∑ i in Finset.range N,
        (b - a) / (N : ℝ) / 2 *
          (f (a + (i : ℝ) * ((b - a) / (N : ℝ))) +
            f (a + (i : ℝ) * ((b - a) / (N : ℝ)) + (b - a) / (N : ℝ))) := by
    unfold trapez_int
    rw [quadH_eq a b N hN, linspace_false_eq, List.map_map, List.map_map,
      list_range_map_sum, list_range_map_sum, ← Finset.sum_add_distrib, Finset.mul_sum]
    rfl
  rw [hval, integral_summe f hcont a b N hN, ← Finset.sum_sub_distrib]
  refine le_trans (Finset.abs_sum_le_sum_abs _ _) ?_
  have hstrip : ∀ i ∈ Finset.range N,
      |(b - a) / (N : ℝ) / 2 *
          (f (a + (i : ℝ) * ((b - a) / (N : ℝ))) +
            f (a + (i : ℝ) * ((b - a) / (N : ℝ)) + (b - a) / (N : ℝ))) -
        ∫ s in (a + (i : ℝ) * ((b - a) / (N : ℝ)))..(a + (i : ℝ) * ((b - a) / (N : ℝ)) + (b - a) / (N : ℝ)), f s| ≤
      M * ((b - a) / (N : ℝ)) ^ 3 := by
    intro i _
    exact trapez_streifen f f1 f2 M hd1 hd2 hb2
      (a + (i : ℝ) * ((b - a) / (N : ℝ))) ((b - a) / (N : ℝ)) hv0
  refine le_trans (Finset.sum_le_sum hstrip) ?_
  rw [Finset.sum_const, Finset.card_range, nsmul_eq_mul]
  have hNh : (N : ℝ) * ((b - a) / (N : ℝ)) = b - a := by field_simp
  refine le_of_eq ?_
  field_simp
  ring

lemma simpson_komposit (f f1 f2 f3 f4 : ℝ → ℝ) (M : ℝ)
    (hd1 : ∀ y, HasDerivAt f (f1 y) y) (hd2 : ∀ y, HasDerivAt f1 (f2 y) y)
    (hd3 : ∀ y, HasDerivAt f2 (f3 y) y) (hd4 : ∀ y, HasDerivAt f3 (f4 y) y)
    (hb4 : ∀ y, |f4 y| ≤ M) (a b : ℝ) (N : ℕ) (hab : a ≤ b) (hN : 1 ≤ N) :
    |simpson_int f a b N - ∫ s in a..b, f s| ≤
      M * (b - a) * ((b - a) / (N : ℝ)) ^ 4 := by
  have hcont : Continuous f := by
    have hdiff : Differentiable ℝ f := fun y => (hd1 y).differentiableAt
    exact hdiff.continuous
  have hNne : (N : ℝ) ≠ 0 := Nat.cast_ne_zero.mpr (by omega)
  have hv0 : 0 ≤ (b - a) / (N : ℝ) := div_nonneg (by linarith) (Nat.cast_nonneg N)
  have hval : simpson_int f a b N =
      ∑ i in Finset.range N,
        (b - a) / (N : ℝ) / 6 *
          (f (a + (i : ℝ) * ((b - a) / (N : ℝ))) +
            4 * f (a + (i : ℝ) * ((b - a) / (N : ℝ)) + (b - a) / (N : ℝ) / 2) +
            f (a + (i : ℝ) * ((b - a) / (N : ℝ)) + (b - a) / (N : ℝ))) := by
    unfold simpson_int
    rw [quadH_eq a b N hN, linspace_false_eq, List.map_map, List.map_map, List.map_map,
      list_range_map_sum, list_range_map_sum, list_range_map_sum, Finset.mul_sum,
      ← Finset.sum_add_distrib, ← Finset.sum_add_distrib, Finset.mul_sum]
    rfl
  rw [hval, integral_summe f hcont a b N hN, ← Finset.sum_sub_distrib]
  refine le_trans (Finset.abs_sum_le_sum_abs _ _) ?_
  have hstrip : ∀ i ∈ Finset.range N,
      |(b - a) / (N : ℝ) / 6 *
          (f (a + (i : ℝ) * ((b - a) / (N : ℝ))) +
            4 * f (a + (i : ℝ) * ((b - a) / (N : ℝ)) + (b - a) / (N : ℝ) / 2) +
            f (a + (i : ℝ) * ((b - a) / (N : ℝ)) + (b - a) / (N : ℝ))) -
        ∫ s in (a + (i : ℝ) * ((b - a) / (N : ℝ)))..(a + (i : ℝ) * ((b - a) / (N : ℝ)) + (b - a) / (N : ℝ)), f s| ≤
      M * ((b - a) / (N : ℝ)) ^ 5 := by
    intro i _
    exact simpson_streifen f f1 f2 f3 f4 M hd1 hd2 hd3 hd4 hb4
      (a + (i : ℝ) * ((b - a) / (N : ℝ))) ((b - a) / (N : ℝ)) hv0
  refine le_trans (Finset.sum_le_sum hstrip) ?_
  rw [Finset.sum_const, Finset.card_range, nsmul_eq_mul]
  have hNh : (N : ℝ) * ((b - a) / (N : ℝ)) = b - a := by field_simp
  refine le_of_eq ?_
  field_simp
  ring

/-- Claim C10: for a smooth function (derivative chain `f1, ..., f5` with
`f2, ..., f5` bounded by `M`) and shrinking step, the approximation errors
of the closed-form numerical formulas scale at the expected asymptotic
order: `O(h)` for the forward difference, `O(h^2)` for the central
difference and for the midpoint and trapezoid quadrature rules, and
`O(h^4)` for the Simpson rule and the extrapolated difference, with
`h = (b-a)/N` the strip width of the composite quadrature rules. -/
theorem fehler_skalierungsordnungen
    (f f1 f2 f3 f4 f5 : ℝ → ℝ) (M : ℝ)
    (hd1 : ∀ y, HasDerivAt f (f1 y) y) (hd2 : ∀ y, HasDerivAt f1 (f2 y) y)
    (hd3 : ∀ y, HasDerivAt f2 (f3 y) y) (hd4 : ∀ y, HasDerivAt f3 (f4 y) y)
    (hd5 : ∀ y, HasDerivAt f4 (f5 y) y)
    (hb2 : ∀ y, |f2 y| ≤ M) (hb3 : ∀ y, |f3 y| ≤ M)
    (hb4 : ∀ y, |f4 y| ≤ M) (hb5 : ∀ y, |f5 y| ≤ M)
    (x h : ℝ) (hh : 0 < h) (a b : ℝ) (N : ℕ) (hab : a ≤ b) (hN : 1 ≤ N) :
    |vor_diff f x h - f1 x| ≤ M * h ∧
      |zentral_diff f x h - f1 x| ≤ M * h ^ 2 ∧
      |extrapol_diff f x h - f1 x| ≤ M * h ^ 4 ∧
      |mittelpunkt_int f a b N - ∫ s in a..b, f s| ≤
        M * (b - a) * ((b - a) / (N : ℝ)) ^ 2 ∧
      |trapez_int f a b N - ∫ s in a..b, f s| ≤
        M * (b - a) * ((b - a) / (N : ℝ)) ^ 2 ∧
      |simpson_int f a b N - ∫ s in a..b, f s| ≤
        M * (b - a) * ((b - a) / (N : ℝ)) ^ 4 :=
  ⟨vor_diff_fehlerordnung f f1 f2 M hd1 hd2 hb2 x h hh,
    zentral_diff_fehlerordnung f f1 f2 f3 M hd1 hd2 hd3 hb3 x h hh,
    extrapol_diff_fehlerordnung f f1 f2 f3 f4 f5 M hd1 hd2 hd3 hd4 hd5 hb5 x h hh,
    mittelpunkt_komposit f f1 f2 M hd1 hd2 hb2 a b N hab hN,
    trapez_komposit f f1 f2 M hd1 hd2 hb2 a b N hab hN,
    simpson_komposit f f1 f2 f3 f4 M hd1 hd2 hd3 hd4 hb4 a b N hab hN⟩

/-- Witness for C10 at a concrete input. -/
theorem fehler_skalierungsordnungen_check :
    ((0 : ℝ) < 1 ∧ (0 : ℝ) ≤ 1 ∧ 1 ≤ 1) ∧
      (|vor_diff (fun _ : ℝ => (0 : ℝ)) 0 1 - (fun _ : ℝ => (0 : ℝ)) 0| ≤ 0 * 1 ∧
        |zentral_diff (fun _ : ℝ => (0 : ℝ)) 0 1 - (fun _ : ℝ => (0 : ℝ)) 0| ≤ 0 * 1 ^ 2 ∧
        |extrapol_diff (fun _ : ℝ => (0 : ℝ)) 0 1 - (fun _ : ℝ => (0 : ℝ)) 0| ≤ 0 * 1 ^ 4 ∧
        |mittelpunkt_int (fun _ : ℝ => (0 : ℝ)) 0 1 1 -
            ∫ s in (0 : ℝ)..(1 : ℝ), (fun _ : ℝ => (0 : ℝ)) s| ≤
          0 * (1 - 0) * ((1 - 0) / ((1 : ℕ) : ℝ)) ^ 2 ∧
        |trapez_int (fun _ : ℝ => (0 : ℝ)) 0 1 1 -
            ∫ s in (0 : ℝ)..(1 : ℝ), (fun _ : ℝ => (0 : ℝ)) s| ≤
          0 * (1 - 0) * ((1 - 0) / ((1 : ℕ) : ℝ)) ^ 2 ∧
        |simpson_int (fun _ : ℝ => (0 : ℝ)) 0 1 1 -
            ∫ s in (0 : ℝ)..(1 : ℝ), (fun _ : ℝ => (0 : ℝ)) s| ≤
          0 * (1 - 0) * ((1 - 0) / ((1 : ℕ) : ℝ)) ^ 4) :=
  ⟨⟨by norm_num, by norm_num, le_refl 1⟩,
    fehler_skalierungsordnungen (fun _ => 0) (fun _ => 0) (fun _ => 0) (fun _ => 0)
      (fun _ => 0) (fun _ => 0) 0
      (fun y => hasDerivAt_const y 0) (fun y => hasDerivAt_const y 0)
      (fun y => hasDerivAt_const y 0) (fun y => hasDerivAt_const y 0)
      (fun y => hasDerivAt_const y 0)
      (fun y => by simp) (fun y => by simp) (fun y => by simp) (fun y => by simp)
      0 1 (by norm_num) 0 1 1 (by norm_num) (le_refl 1)⟩
